import Mathlib

/-!
Verification development for the `enel-poc-llm-identifier` repository.

The repository is a Flask field-validation workflow: inspectors upload photos
of utility poles, a vision model returns a JSON description of detected
equipment, and the code diffs that output against an expected equipment list
("Gabarito") per structure, tracking a per-structure validation status.

This file gives a shallow embedding of the relevant code:
  * Python strings are modelled as `List Char` (`Str`);
  * `json.loads` is modelled by an executable recursive-descent parser over a
    `JValue` datatype (restrictions, stated where relevant: numbers are
    decimal integers, `\uXXXX` escapes are unsupported, and whitespace is the
    four ASCII characters space/tab/LF/CR);
  * file-backed JSON stores are association lists, with Python dict update
    semantics (`aset`: update in place, append when absent);
  * fallible Python operations (`d[k]`, `l[i]`, `float(s)`) return
    `Option`/`Except` values.

Each Python function keeps its source name.
-/

/-- Python strings are modelled as lists of characters. -/
abbrev Str := List Char

/-- The character `{`. -/
def lbrace : Char := Char.ofNat 123

/-- The character `}`. -/
def rbrace : Char := Char.ofNat 125

/-- Whitespace, modelled as the four ASCII whitespace characters used by the
JSON grammar (space, tab, LF, CR).  Python's `str.strip` and the regex `\s`
accept a slightly larger set; the difference is irrelevant to the claims and
is not modelled. -/
def isWs (c : Char) : Bool := c = ' ' || c = '\t' || c = '\n' || c = '\r'

/-- Drop leading whitespace (used both for JSON token skipping and as the
left half of Python `str.strip`). -/
def skipWs (s : Str) : Str := s.dropWhile isWs

/-- Drop trailing whitespace. -/
def stripRight (s : Str) : Str := (s.reverse.dropWhile isWs).reverse

/-- Python `str.strip()`. -/
def pyStrip (s : Str) : Str := stripRight (skipWs s)

/-- Python `str.startswith`: `startsWithL p s` is true when `p` is an initial
segment of `s`. -/
def startsWithL : Str → Str → Bool
| [], _ => true
| _ :: _, [] => false
| a :: p, b :: s => a == b && startsWithL p s

/-- Python `str.endswith`. -/
def endsWithL (p s : Str) : Bool := startsWithL p.reverse s.reverse

/-- Python `sub in s` (substring occurrence). -/
def hasSubL (p : Str) : Str → Bool
| [] => startsWithL p []
| c :: t => startsWithL p (c :: t) || hasSubL p t

/-- Python `str.lower`, restricted to ASCII (`Char.toLower`). -/
def lowerL (s : Str) : Str := s.map Char.toLower

/-- Number of occurrences of a string in a list, used to state
"appears exactly once". -/
def countL (k : Str) (l : List Str) : Nat := (l.filter (fun x => x = k)).length

/-- JSON values as decoded by `json.loads`.  Numbers are modelled as
integers; the floating-point literals accepted by the real decoder are out of
scope for the claims. -/
inductive JValue where
| null
| bool (b : Bool)
| num (n : Int)
| str (s : Str)
| arr (elems : List JValue)
| obj (members : List (Str × JValue))
deriving Repr, BEq

/-- Association-list lookup with Python-dict key semantics
(`d[k]` / `d.get(k)`). -/
def alookup (k : Str) : List (Str × α) → Option α
| [] => none
| (k', v) :: t => if k' = k then some v else alookup k t

/-- Python `k in d`. -/
def amem (k : Str) (m : List (Str × α)) : Bool := (alookup k m).isSome

/-- Python `d[k] = v`: update the entry in place when the key is present,
append it otherwise (dict insertion order). -/
def aset (k : Str) (v : α) : List (Str × α) → List (Str × α)
| [] => [(k, v)]
| (k', v') :: t => if k' = k then (k, v) :: t else (k', v') :: aset k v t

/-- JSON string-escape decoding (`\uXXXX` is not modelled). -/
def unescape (c : Char) : Option Char :=
  if c = '"' then some '"'
  else if c = '\\' then some '\\'
  else if c = '/' then some '/'
  else if c = 'b' then some (Char.ofNat 8)
  else if c = 'f' then some (Char.ofNat 12)
  else if c = 'n' then some '\n'
  else if c = 'r' then some '\r'
  else if c = 't' then some '\t'
  else none

/-- Body of a JSON string literal, after the opening quote: returns the
decoded characters and the remainder after the closing quote.  Raw control
characters are rejected, as in `json.loads` strict mode. -/
def parseStringBody : Str → Str → Option (Str × Str)
| [], _ => none
| c :: rest, acc =>
  if c = '"' then some (acc, rest)
  else if c = '\\' then
    match rest with
    | [] => none
    | e :: r2 =>
      match unescape e with
      | some d => parseStringBody r2 (acc ++ [d])
      | none => none
  else if c.toNat < 32 then none
  else parseStringBody rest (acc ++ [c])

/-- Value of a nonempty digit string. -/
def natOfDigits (ds : Str) : Nat := ds.foldl (fun n c => 10 * n + (c.toNat - 48)) 0

/-- A maximal run of decimal digits and the remainder. -/
def parseDigits (s : Str) : Option (Nat × Str) :=
  let ds := s.takeWhile Char.isDigit
  if ds.isEmpty then none else some (natOfDigits ds, s.dropWhile Char.isDigit)

mutual

/-- Recursive-descent JSON value parser (fuel-indexed; the top level supplies
enough fuel).  Mirrors the grammar accepted by `json.loads`, with the
restrictions stated on `JValue`. -/
def parseVal : Nat → Str → Option (JValue × Str)
| 0, _ => none
| _ + 1, [] => none
| f + 1, c :: rest =>
  if c = lbrace then
    match skipWs rest with
    | d :: r2 => if d = rbrace then some (JValue.obj [], r2) else parseMembers f (d :: r2) []
    | [] => none
  else if c = '[' then
    match skipWs rest with
    | d :: r2 => if d = ']' then some (JValue.arr [], r2) else parseElems f (d :: r2) []
    | [] => none
  else if c = '"' then
    match parseStringBody rest [] with
    | some (s, r2) => some (JValue.str s, r2)
    | none => none
  else if c = 't' then
    if startsWithL (("rue").toList) rest then some (JValue.bool true, rest.drop 3) else none
  else if c = 'f' then
    if startsWithL (("alse").toList) rest then some (JValue.bool false, rest.drop 4) else none
  else if c = 'n' then
    if startsWithL (("ull").toList) rest then some (JValue.null, rest.drop 3) else none
  else if c = '-' then
    match parseDigits rest with
    | some (n, r2) => some (JValue.num (-(n : Int)), r2)
    | none => none
  else if c.isDigit then
    match parseDigits (c :: rest) with
    | some (n, r2) => some (JValue.num (n : Int), r2)
    | none => none
  else none

/-- Members of a JSON object, positioned at the start of a key. -/
def parseMembers : Nat → Str → List (Str × JValue) → Option (JValue × Str)
| 0, _, _ => none
| f + 1, cs, acc =>
  match cs with
  | '"' :: r1 =>
    match parseStringBody r1 [] with
    | some (k, r2) =>
      match skipWs r2 with
      | ':' :: r3 =>
        match parseVal f (skipWs r3) with
        | some (v, r4) =>
          match skipWs r4 with
          | ',' :: r5 => parseMembers f (skipWs r5) (acc ++ [(k, v)])
          | d :: r5 => if d = rbrace then some (JValue.obj (acc ++ [(k, v)]), r5) else none
          | [] => none
        | none => none
      | _ => none
    | none => none
  | _ => none

/-- Elements of a JSON array, positioned at the start of a value. -/
def parseElems : Nat → Str → List JValue → Option (JValue × Str)
| 0, _, _ => none
| f + 1, cs, acc =>
  match parseVal f cs with
  | some (v, r1) =>
    match skipWs r1 with
    | ',' :: r2 => parseElems f (skipWs r2) (acc ++ [v])
    | ']' :: r2 => some (JValue.arr (acc ++ [v]), r2)
    | _ => none
  | none => none

end

/-- `json.loads`: a value surrounded by optional whitespace, nothing else. -/
def jsonParse (s : Str) : Option JValue :=
  let t := skipWs s
  match parseVal (t.length + 1) t with
  | some (v, rest) => if skipWs rest = [] then some v else none
  | none => none

/-! ### The inference-response parsing pipeline (`utils.generate_new_output_json`)

`generate_new_output_json` (src/app/utils.py lines 224-264) takes the API
response, writes a fallback error object when there are no choices or the
content is empty, otherwise extracts a JSON string - first via the regex
`re.search(r'```json\s*(\{.*\})\s*```', output_data, re.DOTALL)`, then via a
manual fence-stripping block - and decodes it, writing a second fallback
error object when decoding fails.  The network call itself is external; the
transformation from response text to persisted output is modelled as a pure
function of the response choices.  -/

/-- The literal ` ```json ` (seven characters). -/
def fenceJsonTok : Str := ("```json").toList

/-- The literal ` ``` ` (three characters). -/
def fenceTok : Str := ("```").toList

/-- Condition decided by the greedy `\}` of the regex at index `j` of the
candidate region: the character is `}` and what follows is whitespace and
then ` ``` `. -/
def closeCond (t1 : Str) (j : Nat) : Bool :=
  (t1.getD j ' ' = rbrace) && startsWithL fenceTok (skipWs (t1.drop (j + 1)))

/-- Greedy semantics of `\{.*\}\s*` + closing fence: the largest index
satisfying `closeCond` (the regex `.*` is greedy and backtracks from the
right). -/
def lastCloseIdx (t1 : Str) : Option Nat :=
  (List.range t1.length).reverse.find? (closeCond t1)

/-- The part of the regex after the literal ` ```json `: skip whitespace
(`\s*`), require `{`, and take through the rightmost viable `}`.  `\s` never
matches `{`, and `.` under `re.DOTALL` matches every character, so this
deterministic reading coincides with the regex engine's backtracking. -/
def tryFence (t : Str) : Option Str :=
  match skipWs t with
  | c :: t1 =>
    if c = lbrace then
      match lastCloseIdx (c :: t1) with
      | some j => some ((c :: t1).take (j + 1))
      | none => none
    else none
  | [] => none

/-- `re.search(r'```json\s*(\{.*\})\s*```', s, re.DOTALL)`: try each start
position left to right; a position can only match where the literal
` ```json ` occurs. -/
def pyFencedSearch : Str → Option Str
| [] => none
| c :: rest =>
  if startsWithL fenceJsonTok (c :: rest) then
    match tryFence ((c :: rest).drop 7) with
    | some g => some g
    | none => pyFencedSearch rest
  else pyFencedSearch rest

/-- The manual fence-stripping block inside the `try` of
`generate_new_output_json` (utils.py lines 246-253).  Note the source slices
`json_str[6:]` after testing `startswith("```json")`, dropping only six of
the marker's seven characters; the model preserves that behaviour. -/
def stripFences (j0 : Str) : Str :=
  let j1 := pyStrip j0
  let j2 := if startsWithL fenceJsonTok j1 then j1.drop 6 else j1
  let j3 := if startsWithL fenceTok j2 then j2.drop 3 else j2
  let j4 := if endsWithL fenceTok j3 then j3.take (j3.length - 3) else j3
  pyStrip j4

/-- The string handed to `json.loads`: the regex group when the fence regex
matches, the whole (stripped) response otherwise, after the manual
fence-stripping block. -/
def extractJsonStr (output_data : Str) : Str :=
  match pyFencedSearch output_data with
  | some g => stripFences g
  | none => stripFences output_data

/-- Fallback written when the API returns no choices or empty content. -/
def errApi : JValue :=
  JValue.obj [(("mensagem").toList,
    JValue.str (("Erro na resposta da API. Por favor, tente novamente.").toList))]

/-- Fallback written when the extracted string fails to decode. -/
def errParse : JValue :=
  JValue.obj [(("mensagem").toList,
    JValue.str (("Erro ao processar a resposta da API. Por favor, tente novamente.").toList))]

/-- `generate_new_output_json`, as the pure function from the response
choices (each choice's message content) to the JSON document persisted to
`instance/output.json`. -/
def generate_new_output_json (choices : List Str) : JValue :=
  match choices with
  | [] => errApi
  | content :: _ =>
    let output_data := pyStrip content
    if output_data = [] then errApi
    else
      match jsonParse (extractJsonStr output_data) with
      | some v => v
      | none => errParse

/-! ### The diff / report computation (`routes.results`, GET path)

src/app/routes.py lines 447-497 (the `new_structure = False` branch):
iterate the structure's Gabarito, classifying each expected item "Sim" when
the key occurs in the decoded model output and "Não" otherwise, merging
`Características do <item>` and `Quantidades` sub-mappings into a
per-item characteristics dict; then iterate the output, classifying keys
that are neither expected nor characteristics/quantities keys as extras. -/

/-- The literal `Características do` tested by
`item.startswith('Características do')`. -/
def carTok : Str := ("Características do").toList

/-- The literal `Quantidades`. -/
def quantKey : Str := ("Quantidades").toList

/-- The literal `Quantidade Identificada`. -/
def quantIdKey : Str := ("Quantidade Identificada").toList

/-- The f-string `f"Características do {item}"`. -/
def carKeyOf (item : Str) : Str := carTok ++ [' '] ++ item

/-- Python truthiness of a decoded JSON value (`if caracteristicas_item:`). -/
def jTruthy : JValue → Bool
| JValue.null => false
| JValue.bool b => b
| JValue.num n => n != 0
| JValue.str s => !s.isEmpty
| JValue.arr l => !l.isEmpty
| JValue.obj m => !m.isEmpty

/-- Python `item in output['Quantidades']`.  The source value is an object
per the prompt schema; membership in arrays and strings follows Python, and
the remaining cases (where Python raises `TypeError`) are modelled as
false - no claim exercises them. -/
def jMemberB (k : Str) : JValue → Bool
| JValue.obj m => amem k m
| JValue.arr l => l.contains (JValue.str k)
| JValue.str s => hasSubL k s
| _ => false

/-- Python `output['Quantidades'][item]` under a preceding successful
membership test; non-object cases (where Python raises `TypeError`) are
modelled as `null` - no claim exercises them. -/
def jIndexD (k : Str) : JValue → JValue
| JValue.obj m => (alookup k m).getD JValue.null
| _ => JValue.null

/-- `caracteristicas[item]['Quantidade Identificada'] = q` with the
`item in caracteristicas` guard of routes.py lines 473-477.  When the stored
value is not a dict Python would raise `TypeError`; modelled as a no-op - the
stored values are the truthy `Características do *` sub-objects. -/
def withQuantity (car : List (Str × JValue)) (item : Str) (q : JValue) :
    List (Str × JValue) :=
  match alookup item car with
  | some (JValue.obj m) => aset item (JValue.obj (aset quantIdKey q m)) car
  | some _ => car
  | none => aset item (JValue.obj [(quantIdKey, q)]) car

/-- Body of the Gabarito loop (routes.py lines 467-479) acting on the
`(encontrados, caracteristicas)` accumulator. -/
def gabStep (output : List (Str × JValue))
    (st : List (Str × Str) × List (Str × JValue)) (item : Str) :
    List (Str × Str) × List (Str × JValue) :=
  let (enc, car) := st
  if amem item output then
    let enc := aset item (("Sim").toList) enc
    let ci := (alookup (carKeyOf item) output).getD (JValue.obj [])
    let car := if jTruthy ci then aset item ci car else car
    let car :=
      match alookup quantKey output with
      | some qv => if jMemberB item qv then withQuantity car item (jIndexD item qv) else car
      | none => car
    (enc, car)
  else
    (aset item (("Não").toList) enc, car)

/-- Body of the extras loop (routes.py lines 481-486) acting on the
`(extras, caracteristicas)` accumulator. -/
def extraStep (gabarito output : List (Str × JValue))
    (st : List (Str × Str) × List (Str × JValue)) (item : Str) :
    List (Str × Str) × List (Str × JValue) :=
  let (ext, car) := st
  if !amem item gabarito && !startsWithL carTok item && item ≠ quantKey then
    let ext := aset item (("Encontrado").toList) ext
    let ci := (alookup (carKeyOf item) output).getD (JValue.obj [])
    let car := if jTruthy ci then aset item ci car else car
    (ext, car)
  else
    (ext, car)

/-- The three dictionaries assembled into `results_data`
(`Itens Verificados`, `Itens Extras` as `list(extras.keys())`,
`Características`). -/
structure DiffResult where
  encontrados : List (Str × Str)
  extras : List Str
  caracteristicas : List (Str × JValue)
deriving Repr, BEq

/-- The diff computed by the `results` handler from the structure's Gabarito
and the decoded model output (routes.py lines 453-492, existing-structure
branch). -/
def computeResults (gabarito output : List (Str × JValue)) : DiffResult :=
  let s1 := gabarito.foldl (fun st p => gabStep output st p.1) ([], [])
  let s2 := output.foldl (fun st p => extraStep gabarito output st p.1) ([], s1.2)
  { encontrados := s1.1, extras := s2.1.map Prod.fst, caracteristicas := s2.2 }

/-! ### Stores, upload validation and route handlers

The persistent state is two JSON documents: `projetos.json`
(project → structure → latitude/longitude/Gabarito) and `validation.json`
(the inner `validations` mapping: project → structure → status/comments).
Latitude/longitude, produced by Python `float(...)` from decimal form
fields, are modelled as rationals.  -/

/-- A per-structure validation record. -/
structure VRecord where
  status : Str
  comments : Str
deriving Repr, DecidableEq

/-- The `validations` mapping of `validation.json`. -/
abbrev VStore := List (Str × List (Str × VRecord))

/-- A structure entry of `projetos.json`. -/
structure StructData where
  latitude : ℚ
  longitude : ℚ
  gabarito : List (Str × JValue)
deriving Repr, BEq

/-- The `projetos.json` document. -/
abbrev PStore := List (Str × List (Str × StructData))

/-- Unhandled Python exceptions raised by the handlers. -/
inductive PyErr where
| keyError (k : Str)
| indexError
deriving Repr, DecidableEq

/-- Python `l[i]` on a list: `IndexError` when out of range. -/
def pyIdx (l : List α) (i : Nat) : Except PyErr α :=
  match l.get? i with
  | some a => Except.ok a
  | none => Except.error PyErr.indexError

/-- `ALLOWED_EXTENSIONS` (src/app/utils.py line 33). -/
def ALLOWED_EXTENSIONS : List Str :=
  [("png").toList, ("jpg").toList, ("jpeg").toList, ("gif").toList]

/-- `filename.rsplit('.', 1)[1]`: everything after the last dot (only
evaluated under the `'.' in filename` guard). -/
def afterLastDot (f : Str) : Str := (f.reverse.takeWhile (fun c => !(c == '.'))).reverse

/-- `allowed_file` (src/app/utils.py lines 35-45). -/
def allowed_file (filename : Str) : Bool :=
  filename.contains '.' && ALLOWED_EXTENSIONS.contains (lowerL (afterLastDot filename))

/-- `"Imagem não relacionada."` (routes.py line 281). -/
def sentinelUnrelated : Str := ("Imagem não relacionada.").toList

/-- `"Imagem sem qualidade."` (routes.py line 284). -/
def sentinelLowQuality : Str := ("Imagem sem qualidade.").toList

mutual

/-- The sentinel test of routes.py lines 281/284 checks the serialized
`output.json` text for a substring; modelled as an occurrence of the needle
inside any string literal or key of the written JSON value (the sentinels
contain `"` -free text, so they can only occur inside string data). -/
def jHasText (needle : Str) : JValue → Bool
| JValue.null => false
| JValue.bool _ => false
| JValue.num _ => false
| JValue.str s => hasSubL needle s
| JValue.arr l => jHasTextList needle l
| JValue.obj m => jHasTextMembers needle m

/-- `jHasText` over array elements. -/
def jHasTextList (needle : Str) : List JValue → Bool
| [] => false
| v :: t => jHasText needle v || jHasTextList needle t

/-- `jHasText` over object members (keys and values). -/
def jHasTextMembers (needle : Str) : List (Str × JValue) → Bool
| [] => false
| (k, v) :: t => hasSubL needle k || jHasText needle v || jHasTextMembers needle t

end

/-- Outcome of a POST to `upload_photo`, identified by the flash message /
redirect the source produces. -/
inductive UploadResult where
| noFile
| emptyFilename
| invalidFormat
| unrelatedImage
| lowQuality
| success
deriving Repr, DecidableEq

/-- The POST branch of `upload_photo` (routes.py lines 250-293) as a
function of the persisted state.  The handler never calls
`save_project_data` / `save_validation_data`, so the two stores pass
through; the output document is overwritten by `generate_new_output_json`
only on the allowed-file path. -/
def upload_photo_post (pd : PStore) (vd : VStore) (out0 : JValue)
    (hasPhotoField : Bool) (filename : Str) (choices : List Str) :
    PStore × VStore × JValue × UploadResult :=
  if !hasPhotoField then (pd, vd, out0, UploadResult.noFile)
  else if filename = [] then (pd, vd, out0, UploadResult.emptyFilename)
  else if allowed_file filename then
    let out1 := generate_new_output_json choices
    if jHasText sentinelUnrelated out1 then (pd, vd, out1, UploadResult.unrelatedImage)
    else if jHasText sentinelLowQuality out1 then (pd, vd, out1, UploadResult.lowQuality)
    else (pd, vd, out1, UploadResult.success)
  else (pd, vd, out0, UploadResult.invalidFormat)

/-- The record created by the lazy-initialisation loop of `select_structure`
(routes.py lines 128-133). -/
def initRecord : VRecord := { status := ("to_be_validated").toList, comments := [] }

/-- The loop of routes.py lines 128-133: insert a fresh
`to_be_validated` record for every listed structure not yet present. -/
def insertMissing (m : List (Str × VRecord)) (structures : List Str) :
    List (Str × VRecord) :=
  structures.foldl (fun m e => if amem e m then m else aset e initRecord m) m

/-- The filter of routes.py line 121: keep the structures whose existing
validation record (if any) does not carry status `extra`. -/
def nonExtraStructures (entry : List (Str × StructData)) (projMap : List (Str × VRecord)) :
    List Str :=
  (entry.map Prod.fst).filter
    (fun e => !(((alookup e projMap).map VRecord.status) == some (("extra").toList)))

/-! ### Geo utilities (`utils.calculate_distance` and the ordering routine)

`calculate_distance` (src/app/utils.py lines 87-113) is the haversine
formula over floats; it is modelled over the reals.  `math.atan2` is modelled
by its standard piecewise definition in terms of `arctan`.

`order_structures_by_latlong` is imported by routes.py from `.utils` but its
definition is absent from the repository sources; it is modelled from the
spec below. -/

/-- `math.radians`: degrees to radians. -/
noncomputable def radians (x : ℝ) : ℝ := x * Real.pi / 180

/-- `math.atan2 y x` (note the argument order), by the standard piecewise
definition. -/
noncomputable def atan2 (y x : ℝ) : ℝ :=
  if 0 < x then Real.arctan (y / x)
  else if x < 0 ∧ 0 ≤ y then Real.arctan (y / x) + Real.pi
  else if x < 0 ∧ y < 0 then Real.arctan (y / x) - Real.pi
  else if 0 < y then Real.pi / 2
  else if y < 0 then -(Real.pi / 2)
  else 0

/-- `calculate_distance` (src/app/utils.py lines 87-113): haversine distance
with Earth radius 6371 km.  The source's intermediate `let` bindings
(`dlat`, `dlon`, `a`, `c`) are inlined. -/
noncomputable def calculate_distance (lat1 lon1 lat2 lon2 : ℝ) : ℝ :=
  6371.0 * (2 * atan2
    (Real.sqrt (Real.sin ((radians lat2 - radians lat1) / 2) ^ 2 +
      Real.cos (radians lat1) * Real.cos (radians lat2) *
        Real.sin ((radians lon2 - radians lon1) / 2) ^ 2))
    (Real.sqrt (1 - (Real.sin ((radians lat2 - radians lat1) / 2) ^ 2 +
      Real.cos (radians lat1) * Real.cos (radians lat2) *
        Real.sin ((radians lon2 - radians lon1) / 2) ^ 2))))

/-- Modelled from the spec: the greedy chain of the ordering routine.  From
the current coordinates, repeatedly visit the nearest (by
`calculate_distance`) remaining structure.  `order_structures_by_latlong` is
referenced by routes.py but missing from the repository sources; spec §4.1:
"Computes pairwise great-circle distance (haversine, Earth radius 6371 km)
and sorts structures so that physically adjacent poles are visited
consecutively". -/
noncomputable def nnChain : ℚ × ℚ → List (Str × StructData) → List Str
| _, [] => []
| cur, a :: l =>
  match h : (a :: l).argmin (fun p =>
      calculate_distance (cur.1 : ℝ) (cur.2 : ℝ) (p.2.latitude : ℝ) (p.2.longitude : ℝ)) with
  | some best =>
    best.1 :: nnChain (best.2.latitude, best.2.longitude)
      ((a :: l).eraseP (fun p => p.1 == best.1))
  | none => []
termination_by _ l => l.length
decreasing_by
  have hmem : best ∈ a :: l := List.argmin_mem h
  have := List.length_eraseP_add_one (p := fun p => p.1 == best.1) hmem (by simp)
  omega

/-- Modelled from the spec: `order_structures_by_latlong`, missing from the
repository sources (imported by routes.py line 41, called at line 137).
Starts the greedy nearest-neighbour chain from the first listed
structure. -/
noncomputable def order_structures_by_latlong (structures : List (Str × StructData)) :
    List Str :=
  match structures with
  | [] => []
  | first :: rest => first.1 :: nnChain (first.2.latitude, first.2.longitude) rest

/-- The start-validation branch of `select_structure` (routes.py lines
143-150): the ordered traversal sequence, reversed (`[::-1]`) when
validation starts from side `'B'`. -/
noncomputable def traversal_sequence (side : Str) (structures : List (Str × StructData)) :
    List Str :=
  let ordered := order_structures_by_latlong structures
  if side = ("B").toList then ordered.reverse else ordered

/-- `lado_a_structure = ordered_structures[0]` and
`lado_b_structure = ordered_structures[2]` (routes.py lines 158-159). -/
def pageEndpoints (ordered : List Str) : Except PyErr (Str × Str) :=
  match pyIdx ordered 0 with
  | Except.error er => Except.error er
  | Except.ok a =>
    match pyIdx ordered 2 with
    | Except.error er => Except.error er
    | Except.ok b => Except.ok (a, b)

/-- The GET path of `select_structure` (routes.py lines 106-174), as the
pair of the validation store it persists and its outcome.  Error points, in
source order: `project_data[project]` (line 118, `KeyError`),
`validation_data['validations'][project]` (line 121, `KeyError`, reached
before the lazy initialisation of lines 123-126 can insert the project),
and `ordered_structures[0]` / `ordered_structures[2]` (lines 158-159,
`IndexError`).  The store write (line 134) happens before the indexing, so
the written store is returned alongside the error. -/
noncomputable def select_structure (pd : PStore) (vd : VStore) (p : Str) :
    VStore × Except PyErr (Str × Str) :=
  match alookup p pd with
  | none => (vd, Except.error (PyErr.keyError p))
  | some entry =>
    match alookup p vd with
    | none => (vd, Except.error (PyErr.keyError p))
    | some projMap =>
      let structures := nonExtraStructures entry projMap
      let vd2 := aset p (insertMissing projMap structures) vd
      (vd2,
        pageEndpoints (order_structures_by_latlong
          (structures.map (fun e => (e, (alookup e entry).getD ⟨0, 0, []⟩)))))

/-- The write performed by the validate/invalidate branches of `results`
(routes.py lines 399-409 / 429-434) and by `add_structure_to_project`
(lines 353-362): ensure the `validations` and project keys exist, then
assign the structure's record. -/
def setVRecord (vd : VStore) (p e : Str) (st cm : Str) : VStore :=
  aset p (aset e { status := st, comments := cm } ((alookup p vd).getD [])) vd

/-- One persisted mutation of `validation.json` by a request handler:
lazy creation on first view of the structure-selection page, a validate or
invalidate action on the results page, or an ad-hoc structure addition. -/
inductive VStep : VStore → VStore → Prop
| select (pd : PStore) (p : Str) (vd : VStore) : VStep vd (select_structure pd vd p).1
| validate (p e cm : Str) (vd : VStore) :
    VStep vd (setVRecord vd p e (("valid").toList) cm)
| invalidate (p e cm : Str) (vd : VStore) :
    VStep vd (setVRecord vd p e (("invalid").toList) cm)
| addExtra (p e : Str) (vd : VStore) :
    VStep vd (setVRecord vd p e (("extra").toList) [])

/-- Validation stores reachable from a given store by handler writes. -/
inductive VReach : VStore → VStore → Prop
| refl (s : VStore) : VReach s s
| step {s t u : VStore} : VReach s t → VStep t u → VReach s u

/-- The GET path of `results` for an existing structure (routes.py lines
447-497): look up the project and the structure's Gabarito (both `KeyError`
on absence, line 465) and compute the diff against the decoded output. -/
def results_get (pd : PStore) (output : List (Str × JValue)) (p e : Str) :
    Except PyErr DiffResult :=
  match alookup p pd with
  | none => Except.error (PyErr.keyError p)
  | some entry =>
    match alookup e entry with
    | none => Except.error (PyErr.keyError e)
    | some sd => Except.ok (computeResults sd.gabarito output)

/-- `float(s)` for the decimal forms the lat/long form fields take
(optional sign, digits, optional fraction); scientific notation and the
`inf`/`nan` spellings accepted by Python are out of scope. -/
def pyFloatQ (s : Str) : Option ℚ :=
  let t := pyStrip s
  let signed : ℚ × Str :=
    match t with
    | '-' :: r => (-1, r)
    | '+' :: r => (1, r)
    | r => (1, r)
  let t1 := signed.2
  let ipds := t1.takeWhile Char.isDigit
  let r2 := t1.dropWhile Char.isDigit
  match r2 with
  | [] => if ipds.isEmpty then none else some (signed.1 * (natOfDigits ipds : ℚ))
  | '.' :: r3 =>
    let fpds := r3.takeWhile Char.isDigit
    let r4 := r3.dropWhile Char.isDigit
    if r4.isEmpty && (!ipds.isEmpty || !fpds.isEmpty) then
      some (signed.1 * ((natOfDigits ipds : ℚ) +
        (natOfDigits fpds : ℚ) / (10 : ℚ) ^ fpds.length))
    else none
  | _ => none

/-- Python falsiness of an optional form field (`not latitude`): the field
is absent or the empty string. -/
def falsyOpt : Option Str → Bool
| none => true
| some s => s.isEmpty

/-- Outcome of `add_structure_to_project`, identified by the redirect the
source produces. -/
inductive AddResp where
| redirectSelect
| redirectSummary
deriving Repr, DecidableEq

/-- `add_structure_to_project` (routes.py lines 314-366).  Missing or
non-numeric latitude/longitude redirect back to structure selection with no
write.  Otherwise the in-memory `project_data[project] = dict()` default is
only persisted (`save_project_data`, line 350) inside the branch where the
structure is absent, which also writes the `extra` validation record; when
the structure already exists neither document is saved. -/
def add_structure_to_project (pd : PStore) (vd : VStore) (p e : Str)
    (latS lonS : Option Str) : PStore × VStore × AddResp :=
  if falsyOpt latS || falsyOpt lonS then (pd, vd, AddResp.redirectSelect)
  else
    match pyFloatQ ((latS).getD []), pyFloatQ ((lonS).getD []) with
    | some lat, some lon =>
      let entry := (alookup p pd).getD []
      if amem e entry then (pd, vd, AddResp.redirectSummary)
      else
        (aset p (aset e { latitude := lat, longitude := lon, gabarito := [] } entry) pd,
         setVRecord vd p e (("extra").toList) [],
         AddResp.redirectSummary)
    | _, _ => (pd, vd, AddResp.redirectSelect)

/-- The four status literals the handlers write into `validation.json`:
`to_be_validated` (lazy creation, routes.py line 131), `valid` (line 406),
`invalid` (line 431) and `extra` (line 359). -/
def allowedStatuses : List Str :=
  [("to_be_validated").toList, ("valid").toList, ("invalid").toList, ("extra").toList]

/-- The status vocabulary as the spec names it (§3: "status ∈ {pending,
valid, invalid, extra}"), read as string literals. -/
def specStatuses : List Str :=
  [("pending").toList, ("valid").toList, ("invalid").toList, ("extra").toList]

/-- A response wrapped in plain code fences: ` ``` ` newline, the text, a
newline and the closing ` ``` `. -/
def plainFenceWrap (s : Str) : Str := fenceTok ++ ['\n'] ++ s ++ ['\n'] ++ fenceTok

/-- A response wrapped in ` ```json ` fences. -/
def jsonFenceWrap (s : Str) : Str := fenceJsonTok ++ ['\n'] ++ s ++ ['\n'] ++ fenceTok

/-! ## Theorems -/

set_option synthInstance.maxHeartbeats 1000000

/-! ### Association-list (Python dict) lemmas -/

theorem alookup_aset (k k' : Str) (v : α) (m : List (Str × α)) :
    alookup k (aset k' v m) = if k' = k then some v else alookup k m := by
  induction m with
  | nil => simp [aset, alookup]
  | cons p t ih =>
    obtain ⟨a, b⟩ := p
    by_cases hak : a = k'
    · subst hak
      by_cases hk : a = k
      · subst hk; simp [aset, alookup]
      · simp [aset, alookup, hk]
    · by_cases hk : a = k
      · subst hk
        simp [aset, alookup, hak, Ne.symm hak]
      · simp [aset, alookup, hak, hk, ih]

theorem aset_absent (k : Str) (v : α) (m : List (Str × α)) (h : alookup k m = none) :
    aset k v m = m ++ [(k, v)] := by
  induction m with
  | nil => simp [aset]
  | cons p t ih =>
    obtain ⟨a, b⟩ := p
    simp only [alookup] at h
    by_cases hak : a = k
    · simp [hak] at h
    · simp [aset, hak]
      exact ih (by simpa [hak] using h)

theorem alookup_append (k : Str) (m n : List (Str × α)) :
    alookup k (m ++ n) =
      (match alookup k m with
       | some v => some v
       | none => alookup k n) := by
  induction m with
  | nil => simp [alookup]
  | cons p t ih =>
    obtain ⟨a, b⟩ := p
    by_cases hak : a = k
    · simp [alookup, hak]
    · simp [alookup, hak, ih]

/-! ### C2: the concrete diff example -/

/-- C2.  With expected mapping `{"Cruzeta": {}, "Religador": {}}` and
detected mapping `{"Cruzeta": true, "Luminária": true}`, the diff computed
by the results handler classifies Cruzeta as found ("Sim"), Religador as
missing ("Não"), and lists Luminária as the only extra. -/
theorem c2_diff_example :
    computeResults
      [(("Cruzeta").toList, JValue.obj []), (("Religador").toList, JValue.obj [])]
      [(("Cruzeta").toList, JValue.bool true), (("Luminária").toList, JValue.bool true)] =
    { encontrados := [(("Cruzeta").toList, ("Sim").toList),
                      (("Religador").toList, ("Não").toList)],
      extras := [("Luminária").toList],
      caracteristicas := [] } := by
  rfl

/-! ### C4: reversed traversal -/

/-- C4.  For every non-empty structure mapping, the traversal sequence used
when validation starts from side `'B'` is exactly the reverse of the ordered
sequence produced for side `'A'`. -/
theorem c4_traversal_reverse (m : List (Str × StructData)) (hm : m ≠ []) :
    traversal_sequence (("B").toList) m =
      (traversal_sequence (("A").toList) m).reverse := by
  unfold traversal_sequence
  rw [if_pos rfl, if_neg (by decide)]

/-- C4 witness: a concrete one-structure project. -/
theorem c4_traversal_reverse_witness :
    ([((("P1").toList), ({ latitude := 0, longitude := 0, gabarito := [] } : StructData))] ≠
        ([] : List (Str × StructData))) ∧
      traversal_sequence (("B").toList)
          [((("P1").toList), { latitude := 0, longitude := 0, gabarito := [] })] =
        (traversal_sequence (("A").toList)
          [((("P1").toList), { latitude := 0, longitude := 0, gabarito := [] })]).reverse :=
  ⟨by simp, c4_traversal_reverse _ (by simp)⟩

/-! ### C3: haversine identity and symmetry -/

/-- C3.  `calculate_distance` (haversine, Earth radius 6371 km) vanishes on
identical coordinate pairs and is symmetric in its two points. -/
theorem c3_haversine_identity_symmetry :
    (∀ lat lon : ℝ, calculate_distance lat lon lat lon = 0) ∧
      (∀ lat1 lon1 lat2 lon2 : ℝ,
        calculate_distance lat1 lon1 lat2 lon2 = calculate_distance lat2 lon2 lat1 lon1) := by
  constructor
  · intro lat lon
    simp [calculate_distance, atan2, Real.sqrt_one, Real.arctan_zero]
  · intro a b c d
    have h1 : ∀ x y : ℝ, Real.sin ((x - y) / 2) ^ 2 = Real.sin ((y - x) / 2) ^ 2 := by
      intro x y
      rw [show (x - y) / 2 = -((y - x) / 2) by ring, Real.sin_neg]
      ring
    unfold calculate_distance
    rw [h1 (radians c) (radians a), h1 (radians d) (radians b),
      mul_comm (Real.cos (radians a)) (Real.cos (radians c))]

/-! ### C7: invalid upload extension -/

/-- C7.  A filename without a dot, or whose lowercased final extension is
not one of png/jpg/jpeg/gif, fails `allowed_file`, and the upload handler
rejects the request leaving the project store, the validation store and the
output JSON unchanged. -/
theorem c7_invalid_extension_rejected (filename : Str)
    (hbad : filename.contains '.' = false ∨
      ALLOWED_EXTENSIONS.contains (lowerL (afterLastDot filename)) = false) :
    allowed_file filename = false ∧
      ∀ (pd : PStore) (vd : VStore) (out : JValue) (choices : List Str),
        upload_photo_post pd vd out true filename choices =
          (pd, vd, out,
            if filename = [] then UploadResult.emptyFilename else UploadResult.invalidFormat) := by
  have hallow : allowed_file filename = false := by
    rcases hbad with h | h
    · simp only [allowed_file, h, Bool.false_and]
    · simp only [allowed_file, h, Bool.and_false]
  refine ⟨hallow, ?_⟩
  intro pd vd out choices
  by_cases hf : filename = [] <;> simp [upload_photo_post, hallow, hf]

/-- C7 witness: the filename `malware.exe`. -/
theorem c7_invalid_extension_rejected_witness :
    (ALLOWED_EXTENSIONS.contains (lowerL (afterLastDot (("malware.exe").toList))) = false) ∧
      upload_photo_post [] [] JValue.null true (("malware.exe").toList) [] =
        ([], [], JValue.null, UploadResult.invalidFormat) := by
  refine ⟨by decide, ?_⟩
  have h := (c7_invalid_extension_rejected (("malware.exe").toList) (Or.inr (by decide))).2
    [] [] JValue.null []
  simpa using h

/-! ### C8: missing-key lookup failures -/

/-- C8.  Looking up a project absent from the project store makes
`select_structure` raise `KeyError`, and looking up the Gabarito of a
structure absent from an existing project makes the `results` handler raise
`KeyError`; both error branches are reachable (see the witness), i.e. the
handlers are partial on such inputs. -/
theorem c8_missing_key_errors :
    (∀ (pd : PStore) (vd : VStore) (p : Str), alookup p pd = none →
      (select_structure pd vd p).2 = Except.error (PyErr.keyError p)) ∧
      (∀ (pd : PStore) (output : List (Str × JValue)) (p e : Str)
          (entry : List (Str × StructData)),
        alookup p pd = some entry → alookup e entry = none →
        results_get pd output p e = Except.error (PyErr.keyError e)) := by
  constructor
  · intro pd vd p h
    simp [select_structure, h]
  · intro pd output p e entry h1 h2
    simp [results_get, h1, h2]

/-- C8 witness: a project absent from an empty store, and a structure absent
from an existing (empty) project. -/
theorem c8_missing_key_errors_witness :
    (alookup (("P").toList) ([] : PStore) = none) ∧
      (select_structure [] [] (("P").toList)).2 =
        Except.error (PyErr.keyError (("P").toList)) ∧
      (alookup (("P").toList) ([((("P").toList), ([] : List (Str × StructData)))]) =
        some []) ∧
      results_get [((("P").toList), [])] [] (("P").toList) (("E").toList) =
        Except.error (PyErr.keyError (("E").toList)) :=
  ⟨rfl,
   (c8_missing_key_errors).1 [] [] (("P").toList) rfl,
   rfl,
   (c8_missing_key_errors).2 [((("P").toList), [])] [] (("P").toList) (("E").toList) [] rfl rfl⟩

/-! ### C9: the structure-selection page needs three structures -/

theorem nnChain_length_aux :
    ∀ (k : Nat) (l : List (Str × StructData)) (c : ℚ × ℚ),
      l.length ≤ k → (nnChain c l).length = l.length := by
  intro k
  induction k with
  | zero =>
    intro l c h
    have hl : l = [] := List.length_eq_zero.mp (Nat.le_zero.mp h)
    subst hl
    simp [nnChain]
  | succ k ih =>
    intro l c h
    match l with
    | [] => simp [nnChain]
    | a :: t =>
      rw [nnChain]
      split
      · next best hbest =>
        have hmem : best ∈ a :: t := List.argmin_mem hbest
        have hlen := List.length_eraseP_add_one (p := fun q => q.1 == best.1) hmem (by simp)
        have hc : (a :: t).length = t.length + 1 := by simp
        have hrec := ih ((a :: t).eraseP (fun q => q.1 == best.1))
          (best.2.latitude, best.2.longitude) (by omega)
        rw [List.length_cons, hrec]
        exact hlen
      · next hbest =>
        have : a :: t = [] := List.argmin_eq_none.mp hbest
        simp at this

theorem order_structures_length (l : List (Str × StructData)) :
    (order_structures_by_latlong l).length = l.length := by
  cases l with
  | nil => rfl
  | cons a t =>
    simp [order_structures_by_latlong, nnChain_length_aux t.length t _ le_rfl]

theorem pageEndpoints_indexError (l : List Str) (h : l.length < 3) :
    pageEndpoints l = Except.error PyErr.indexError := by
  match l with
  | [] => rfl
  | [a] => rfl
  | [a, b] => rfl
  | a :: b :: c :: t => simp only [List.length_cons] at h; omega

/-- C9.  The GET path of `select_structure` unconditionally reads elements 0
and 2 of the ordered structure list, so for an existing project (with a
validation entry) whose list of non-extra structures has fewer than three
entries, viewing the page fails with an out-of-range index error. -/
theorem c9_select_structure_needs_three (pd : PStore) (vd : VStore) (p : Str)
    (entry : List (Str × StructData)) (projMap : List (Str × VRecord))
    (h1 : alookup p pd = some entry) (h2 : alookup p vd = some projMap)
    (h3 : (nonExtraStructures entry projMap).length < 3) :
    (select_structure pd vd p).2 = Except.error PyErr.indexError := by
  have hlen : (order_structures_by_latlong ((nonExtraStructures entry projMap).map
      (fun e => (e, (alookup e entry).getD ⟨0, 0, []⟩)))).length < 3 := by
    rw [order_structures_length, List.length_map]
    exact h3
  simp only [select_structure, h1, h2]
  exact pageEndpoints_indexError _ hlen

/-- C9 witness: a project with two structures, both keys present. -/
theorem c9_select_structure_needs_three_witness :
    (alookup (("P").toList)
        ([((("P").toList),
          [((("E1").toList), ({ latitude := 0, longitude := 0, gabarito := [] } : StructData)),
           ((("E2").toList), ({ latitude := 1, longitude := 1, gabarito := [] } : StructData))])] : PStore) =
      some [((("E1").toList), { latitude := 0, longitude := 0, gabarito := [] }),
            ((("E2").toList), { latitude := 1, longitude := 1, gabarito := [] })]) ∧
      (alookup (("P").toList) ([((("P").toList), [])] : VStore) = some []) ∧
      (select_structure
          [((("P").toList),
            [((("E1").toList), { latitude := 0, longitude := 0, gabarito := [] }),
             ((("E2").toList), { latitude := 1, longitude := 1, gabarito := [] })])]
          [((("P").toList), [])] (("P").toList)).2 = Except.error PyErr.indexError :=
  ⟨rfl, rfl,
   c9_select_structure_needs_three _ _ _ _ _ rfl rfl (by decide)⟩

/-! ### C10: adding an existing structure is a no-op on the stores -/

/-- C10.  When the structure already exists in the project's entry of the
project store, `add_structure_to_project` persists nothing: for every
latitude/longitude form input both documents are returned exactly unchanged,
and for a well-formed input (present, non-empty, float-parseable fields) the
handler redirects to the project summary. -/
theorem c10_add_existing_noop (pd : PStore) (vd : VStore) (p e : Str)
    (entry : List (Str × StructData))
    (h1 : alookup p pd = some entry) (h2 : amem e entry = true) :
    (∀ latS lonS : Option Str,
        (add_structure_to_project pd vd p e latS lonS).1 = pd ∧
        (add_structure_to_project pd vd p e latS lonS).2.1 = vd) ∧
      (∀ ls0 ls1 : Str, (pyFloatQ ls0).isSome → (pyFloatQ ls1).isSome →
        ls0 ≠ [] → ls1 ≠ [] →
        (add_structure_to_project pd vd p e (some ls0) (some ls1)).2.2 =
          AddResp.redirectSummary) := by
  constructor
  · intro latS lonS
    unfold add_structure_to_project
    split
    · exact ⟨rfl, rfl⟩
    · split
      · next lat lon hlat hlon =>
        simp [h1, h2]
      · exact ⟨rfl, rfl⟩
  · intro ls0 ls1 hq0 hq1 hne0 hne1
    obtain ⟨q0, hq0⟩ := Option.isSome_iff_exists.mp hq0
    obtain ⟨q1, hq1⟩ := Option.isSome_iff_exists.mp hq1
    unfold add_structure_to_project
    have hf : (falsyOpt (some ls0) || falsyOpt (some ls1)) = false := by
      simp [falsyOpt, hne0, hne1]
    rw [if_neg (by simp [hf])]
    simp only [Option.getD_some, hq0, hq1, h1, h2, if_true]

/-- C10 witness: adding the already-present structure `E` of project `P`
with well-formed coordinates. -/
theorem c10_add_existing_noop_witness :
    (alookup (("P").toList)
        ([((("P").toList),
          [((("E").toList), ({ latitude := 3, longitude := 4, gabarito := [] } : StructData))])] : PStore) =
      some [((("E").toList), { latitude := 3, longitude := 4, gabarito := [] })]) ∧
      (amem (("E").toList)
        [((("E").toList), ({ latitude := 3, longitude := 4, gabarito := [] } : StructData))] = true) ∧
      ((pyFloatQ (("1.5").toList)).isSome ∧ (pyFloatQ (("2").toList)).isSome) ∧
      (add_structure_to_project
          [((("P").toList), [((("E").toList), { latitude := 3, longitude := 4, gabarito := [] })])]
          [] (("P").toList) (("E").toList)
          (some (("1.5").toList)) (some (("2").toList))).1 =
        [((("P").toList), [((("E").toList), { latitude := 3, longitude := 4, gabarito := [] })])] ∧
      (add_structure_to_project
          [((("P").toList), [((("E").toList), { latitude := 3, longitude := 4, gabarito := [] })])]
          [] (("P").toList) (("E").toList)
          (some (("1.5").toList)) (some (("2").toList))).2.1 = ([] : VStore) ∧
      (add_structure_to_project
          [((("P").toList), [((("E").toList), { latitude := 3, longitude := 4, gabarito := [] })])]
          [] (("P").toList) (("E").toList)
          (some (("1.5").toList)) (some (("2").toList))).2.2 = AddResp.redirectSummary := by
  have h := c10_add_existing_noop
    [((("P").toList), [((("E").toList), { latitude := 3, longitude := 4, gabarito := [] })])]
    [] (("P").toList) (("E").toList)
    [((("E").toList), { latitude := 3, longitude := 4, gabarito := [] })] rfl rfl
  refine ⟨rfl, rfl, ⟨rfl, rfl⟩, (h.1 _ _).1, (h.1 _ _).2, ?_⟩
  exact h.2 (("1.5").toList) (("2").toList) rfl rfl (by simp) (by simp)

/-! ### C6: the status-set invariant of the validation store -/

theorem alookup_insertMissing (l : List Str) (m : List (Str × VRecord)) (e : Str)
    (r : VRecord) (h : alookup e (insertMissing m l) = some r) :
    alookup e m = some r ∨ r = initRecord := by
  induction l generalizing m with
  | nil => exact Or.inl h
  | cons x xs ih =>
    have h' : alookup e (insertMissing (if amem x m then m else aset x initRecord m) xs) =
        some r := h
    rcases ih _ h' with h2 | h2
    · by_cases hx : amem x m
      · rw [if_pos hx] at h2
        exact Or.inl h2
      · rw [if_neg hx] at h2
        rw [alookup_aset] at h2
        by_cases hxe : x = e
        · rw [if_pos hxe] at h2
          exact Or.inr (Option.some_injective _ h2).symm
        · rw [if_neg hxe] at h2
          exact Or.inl h2
    · exact Or.inr h2

theorem statusInv_setVRecord (vd : VStore) (p e st cm : Str)
    (hinv : ∀ q m, alookup q vd = some m → ∀ x r, alookup x m = some r →
      r.status ∈ allowedStatuses)
    (hst : st ∈ allowedStatuses) :
    ∀ q m, alookup q (setVRecord vd p e st cm) = some m → ∀ x r, alookup x m = some r →
      r.status ∈ allowedStatuses := by
  intro q m hm x r hr
  unfold setVRecord at hm
  rw [alookup_aset] at hm
  by_cases hpq : p = q
  · rw [if_pos hpq] at hm
    obtain rfl : aset e { status := st, comments := cm } ((alookup p vd).getD []) = m :=
      Option.some_injective _ hm
    rw [alookup_aset] at hr
    by_cases hex : e = x
    · rw [if_pos hex] at hr
      obtain rfl : ({ status := st, comments := cm } : VRecord) = r :=
        Option.some_injective _ hr
      exact hst
    · rw [if_neg hex] at hr
      cases hpv : alookup p vd with
      | none => rw [hpv] at hr; simp [alookup] at hr
      | some pm =>
        rw [hpv] at hr
        exact hinv p pm hpv x r hr
  · rw [if_neg hpq] at hm
    exact hinv q m hm x r hr

theorem statusInv_select (pd : PStore) (p : Str) (vd : VStore)
    (hinv : ∀ q m, alookup q vd = some m → ∀ x r, alookup x m = some r →
      r.status ∈ allowedStatuses) :
    ∀ q m, alookup q (select_structure pd vd p).1 = some m → ∀ x r, alookup x m = some r →
      r.status ∈ allowedStatuses := by
  intro q m hm x r hr
  unfold select_structure at hm
  cases h1 : alookup p pd with
  | none =>
    rw [h1] at hm
    exact hinv q m hm x r hr
  | some entry =>
    rw [h1] at hm
    cases h2 : alookup p vd with
    | none =>
      rw [h2] at hm
      exact hinv q m hm x r hr
    | some projMap =>
      rw [h2] at hm
      simp only at hm
      rw [alookup_aset] at hm
      by_cases hpq : p = q
      · rw [if_pos hpq] at hm
        obtain rfl : insertMissing projMap (nonExtraStructures entry projMap) = m :=
          Option.some_injective _ hm
        rcases alookup_insertMissing _ _ _ _ hr with h3 | h3
        · exact hinv p projMap h2 x r h3
        · subst h3
          simp [initRecord, allowedStatuses]
      · rw [if_neg hpq] at hm
        exact hinv q m hm x r hr

/-- C6 amended.  Every record in every validation store reachable from the
empty store through the handlers' writes (lazy creation on first view,
validate/invalidate, ad-hoc extra addition) has a status among the four
literals the code writes: `to_be_validated`, `valid`, `invalid`, `extra`.
(The spec names the first of these "pending"; see the counterexample.) -/
theorem c6_status_invariant (s : VStore) (hreach : VReach [] s) :
    ∀ p m, alookup p s = some m → ∀ e r, alookup e m = some r →
      r.status ∈ allowedStatuses := by
  induction hreach with
  | refl => intro p m hm; simp [alookup] at hm
  | step _ hstep ih =>
    cases hstep with
    | select pd p => exact statusInv_select pd p _ ih
    | validate p e cm =>
      exact statusInv_setVRecord _ p e (("valid").toList) cm ih (by simp [allowedStatuses])
    | invalidate p e cm =>
      exact statusInv_setVRecord _ p e (("invalid").toList) cm ih (by simp [allowedStatuses])
    | addExtra p e =>
      exact statusInv_setVRecord _ p e (("extra").toList) [] ih (by simp [allowedStatuses])

/-- C6 witness: a store reached by a single validate action satisfies the
invariant at its concrete record. -/
theorem c6_status_invariant_witness :
    VReach [] (setVRecord [] (("P").toList) (("E0").toList) (("valid").toList) []) ∧
      ({ status := ("valid").toList, comments := [] } : VRecord).status ∈ allowedStatuses :=
  ⟨VReach.step (VReach.refl []) (VStep.validate (("P").toList) (("E0").toList) [] []),
   c6_status_invariant _
     (VReach.step (VReach.refl []) (VStep.validate (("P").toList) (("E0").toList) [] []))
     (("P").toList) _ rfl (("E0").toList) _ rfl⟩

/-- C6 counterexample to the claim's literal status set: the lazy-creation
write of `select_structure` (routes.py line 131) stores the literal
`to_be_validated`, which is not among the spec's literals
{pending, valid, invalid, extra} - the spec calls this status "pending". -/
theorem c6_status_literal_counterexample :
    VReach []
      ((select_structure
        [((("P").toList),
          [((("E0").toList), ({ latitude := 0, longitude := 0, gabarito := [] } : StructData)),
           ((("E1").toList), ({ latitude := 1, longitude := 1, gabarito := [] } : StructData))])]
        (setVRecord [] (("P").toList) (("E0").toList) (("valid").toList) [])
        (("P").toList)).1) ∧
      ((alookup (("E1").toList)
          ((alookup (("P").toList)
            ((select_structure
              [((("P").toList),
                [((("E0").toList), ({ latitude := 0, longitude := 0, gabarito := [] } : StructData)),
                 ((("E1").toList), ({ latitude := 1, longitude := 1, gabarito := [] } : StructData))])]
              (setVRecord [] (("P").toList) (("E0").toList) (("valid").toList) [])
              (("P").toList)).1)).getD [])).map VRecord.status) =
        some (("to_be_validated").toList) ∧
      (("to_be_validated").toList) ∉ specStatuses :=
  ⟨VReach.step
      (VReach.step (VReach.refl []) (VStep.validate (("P").toList) (("E0").toList) [] []))
      (VStep.select _ (("P").toList) _),
   by rfl,
   by decide⟩

/-! ### C1: the diff report partitions the expected and detected keys -/

theorem countL_eq_zero (k : Str) (l : List Str) (hm : k ∉ l) :
    countL k l = 0 := by
  unfold countL
  rw [List.filter_eq_nil_iff.mpr]
  · rfl
  · intro x hx
    simp only [decide_eq_true_eq]
    intro he
    exact hm (he ▸ hx)

theorem countL_eq_one (k : Str) (l : List Str) (hd : l.Nodup) (hm : k ∈ l) :
    countL k l = 1 := by
  induction l with
  | nil => simp at hm
  | cons a t ih =>
    have hdt : a ∉ t ∧ t.Nodup := by simpa [List.nodup_cons] using hd
    rcases (by simpa using hm : k = a ∨ k ∈ t) with h | h
    · subst h
      have hz : countL k t = 0 := countL_eq_zero k t hdt.1
      unfold countL at hz ⊢
      simp [List.filter_cons, hz]
    · have hka : k ≠ a := fun he => hdt.1 (he ▸ h)
      unfold countL at *
      simp [List.filter_cons, Ne.symm hka, ih hdt.2 h]

theorem amem_iff_mem_keys (k : Str) (m : List (Str × α)) :
    amem k m = true ↔ k ∈ m.map Prod.fst := by
  induction m with
  | nil => simp [amem, alookup]
  | cons p t ih =>
    obtain ⟨a, b⟩ := p
    by_cases hpk : a = k
    · subst hpk
      simp [amem, alookup]
    · have hstep : amem k ((a, b) :: t) = amem k t := by
        simp [amem, alookup, hpk]
      rw [hstep, ih]
      simp only [List.map_cons, List.mem_cons]
      constructor
      · exact fun h => Or.inr h
      · rintro (h | h)
        · exact absurd h.symm hpk
        · exact h

theorem gabStep_fst (output : List (Str × JValue))
    (st : List (Str × Str) × List (Str × JValue)) (k : Str) :
    (gabStep output st k).1 =
      aset k (if amem k output then ("Sim").toList else ("Não").toList) st.1 := by
  obtain ⟨enc, car⟩ := st
  by_cases h : amem k output <;> simp [gabStep, h]

theorem gab_fold_enc (output : List (Str × JValue)) :
    ∀ (g : List (Str × JValue)) (acc : List (Str × Str)) (car : List (Str × JValue)),
      (∀ k, k ∈ g.map Prod.fst → alookup k acc = none) → (g.map Prod.fst).Nodup →
      (g.foldl (fun st p => gabStep output st p.1) (acc, car)).1 =
        acc ++ g.map
          (fun p => (p.1, if amem p.1 output then ("Sim").toList else ("Não").toList)) := by
  intro g
  induction g with
  | nil => intro acc car h hd; simp
  | cons p g ih =>
    intro acc car h hd
    have hdp : p.1 ∉ g.map Prod.fst ∧ (g.map Prod.fst).Nodup := by
      simpa [List.nodup_cons] using hd
    rw [List.foldl_cons]
    have hsplit : gabStep output (acc, car) p.1 =
        (aset p.1 (if amem p.1 output then ("Sim").toList else ("Não").toList) acc,
         (gabStep output (acc, car) p.1).2) :=
      Prod.ext (gabStep_fst output (acc, car) p.1) rfl
    have hacc : aset p.1 (if amem p.1 output then ("Sim").toList else ("Não").toList) acc =
        acc ++ [(p.1, if amem p.1 output then ("Sim").toList else ("Não").toList)] :=
      aset_absent _ _ _ (h p.1 (by simp))
    have hnext : ∀ k, k ∈ g.map Prod.fst →
        alookup k (acc ++ [(p.1, if amem p.1 output then ("Sim").toList
          else ("Não").toList)]) = none := by
      intro k hk
      rw [alookup_append, h k (by simp [hk])]
      have hkp : p.1 ≠ k := fun he => hdp.1 (he ▸ hk)
      simp [alookup, hkp]
    rw [hsplit, hacc, ih _ _ hnext hdp.2]
    simp

theorem alookup_map_by_key (f : Str → Str) (g : List (Str × JValue)) (k : Str)
    (hk : k ∈ g.map Prod.fst) :
    alookup k (g.map (fun p => (p.1, f p.1))) = some (f k) := by
  induction g with
  | nil => simp at hk
  | cons p t ih =>
    by_cases hpk : p.1 = k
    · subst hpk
      simp [alookup]
    · have hk' : k ∈ t.map Prod.fst := by
        rw [List.map_cons] at hk
        rcases List.mem_cons.mp hk with h | h
        · exact absurd h.symm hpk
        · exact h
      simp [alookup, hpk, ih hk']

theorem extraStep_fst (gabarito output : List (Str × JValue))
    (st : List (Str × Str) × List (Str × JValue)) (k : Str) :
    (extraStep gabarito output st k).1 =
      if (!amem k gabarito && !startsWithL carTok k && decide (k ≠ quantKey)) then
        aset k (("Encontrado").toList) st.1
      else st.1 := by
  obtain ⟨ext, car⟩ := st
  by_cases h : (!amem k gabarito && !startsWithL carTok k && decide (k ≠ quantKey)) = true
  · simp only [extraStep, h, if_true]
  · simp only [extraStep]
    rw [if_neg (by simpa using h), if_neg (by simpa using h)]

theorem extra_fold_ext (gabarito output : List (Str × JValue)) :
    ∀ (o : List (Str × JValue)) (acc : List (Str × Str)) (car : List (Str × JValue)),
      (∀ k, k ∈ o.map Prod.fst → alookup k acc = none) → (o.map Prod.fst).Nodup →
      (o.foldl (fun st p => extraStep gabarito output st p.1) (acc, car)).1 =
        acc ++ ((o.map Prod.fst).filter
          (fun k => !amem k gabarito && !startsWithL carTok k && decide (k ≠ quantKey))).map
            (fun k => (k, ("Encontrado").toList)) := by
  intro o
  induction o with
  | nil => intro acc car h hd; simp
  | cons p o ih =>
    intro acc car h hd
    have hdp : p.1 ∉ o.map Prod.fst ∧ (o.map Prod.fst).Nodup := by
      simpa [List.nodup_cons] using hd
    rw [List.foldl_cons]
    by_cases hp : (!amem p.1 gabarito && !startsWithL carTok p.1 && decide (p.1 ≠ quantKey)) = true
    · have hsplit : extraStep gabarito output (acc, car) p.1 =
          (aset p.1 (("Encontrado").toList) acc,
           (extraStep gabarito output (acc, car) p.1).2) := by
        refine Prod.ext ?_ rfl
        rw [extraStep_fst, if_pos hp]
      have hacc : aset p.1 (("Encontrado").toList) acc =
          acc ++ [(p.1, ("Encontrado").toList)] :=
        aset_absent _ _ _ (h p.1 (by simp))
      have hnext : ∀ k, k ∈ o.map Prod.fst →
          alookup k (acc ++ [(p.1, ("Encontrado").toList)]) = none := by
        intro k hk
        rw [alookup_append, h k (by simp [hk])]
        have hkp : p.1 ≠ k := fun he => hdp.1 (he ▸ hk)
        simp [alookup, hkp]
      rw [hsplit, hacc, ih _ _ hnext hdp.2, List.map_cons, List.filter_cons, if_pos hp]
      simp
    · have hsplit : extraStep gabarito output (acc, car) p.1 =
          (acc, (extraStep gabarito output (acc, car) p.1).2) := by
        refine Prod.ext ?_ rfl
        rw [extraStep_fst, if_neg (by simpa using hp)]
      have hnext : ∀ k, k ∈ o.map Prod.fst → alookup k acc = none := by
        intro k hk
        exact h k (by simp [hk])
      rw [hsplit, ih _ _ hnext hdp.2, List.map_cons, List.filter_cons, if_neg hp]

/-- C1.  The diff computed by the results handler classifies each expected
key exactly once - "Sim" when the key occurs in the detected output, "Não"
otherwise (the `encontrados` keys are exactly the Gabarito keys, in order) -
and the extras list contains exactly once every detected key absent from the
Gabarito, excepting the `Características do *`-prefixed keys and the
`Quantidades` key, which are merged into the per-item characteristics
instead of being classified as items. -/
theorem c1_diff_partition (gabarito output : List (Str × JValue))
    (hg : (gabarito.map Prod.fst).Nodup) (ho : (output.map Prod.fst).Nodup) :
    ((computeResults gabarito output).encontrados.map Prod.fst = gabarito.map Prod.fst) ∧
      (∀ k, k ∈ gabarito.map Prod.fst →
        alookup k (computeResults gabarito output).encontrados =
          some (if amem k output then ("Sim").toList else ("Não").toList)) ∧
      (∀ k, countL k (computeResults gabarito output).extras =
        if amem k output ∧ ¬ amem k gabarito ∧
            startsWithL carTok k = false ∧ k ≠ quantKey then 1 else 0) := by
  have henc : (computeResults gabarito output).encontrados =
      gabarito.map
        (fun p => (p.1, if amem p.1 output then ("Sim").toList else ("Não").toList)) := by
    show (gabarito.foldl (fun st p => gabStep output st p.1) ([], [])).1 = _
    rw [gab_fold_enc output gabarito [] [] (fun k _ => rfl) hg]
    simp
  have hext : (computeResults gabarito output).extras =
      (output.map Prod.fst).filter
        (fun k => !amem k gabarito && !startsWithL carTok k && decide (k ≠ quantKey)) := by
    show ((output.foldl (fun st p => extraStep gabarito output st p.1)
        ([], (gabarito.foldl (fun st p => gabStep output st p.1) ([], [])).2)).1).map
          Prod.fst = _
    rw [extra_fold_ext gabarito output output []
      ((gabarito.foldl (fun st p => gabStep output st p.1) ([], [])).2)
      (fun k _ => rfl) ho]
    rw [List.nil_append, List.map_map]
    rw [show (Prod.fst ∘ fun k => (k, ("Encontrado").toList)) = id from rfl, List.map_id]
  refine ⟨?_, ?_, ?_⟩
  · rw [henc, List.map_map]
    rfl
  · intro k hk
    rw [henc]
    exact alookup_map_by_key
      (fun k => if amem k output then ("Sim").toList else ("Não").toList) gabarito k hk
  · intro k
    rw [hext]
    by_cases hcond : amem k output ∧ ¬ amem k gabarito ∧
        startsWithL carTok k = false ∧ k ≠ quantKey
    · rw [if_pos hcond]
      apply countL_eq_one _ _ (ho.filter _)
      rw [List.mem_filter]
      refine ⟨(amem_iff_mem_keys k output).mp hcond.1, ?_⟩
      have h1 : amem k gabarito = false := eq_false_of_ne_true hcond.2.1
      simp [h1, hcond.2.2.1, hcond.2.2.2]
    · rw [if_neg hcond]
      apply countL_eq_zero
      rw [List.mem_filter]
      rintro ⟨hmem, hpred⟩
      apply hcond
      simp only [Bool.and_eq_true, Bool.not_eq_true', decide_eq_true_eq] at hpred
      exact ⟨(amem_iff_mem_keys k output).mpr hmem, by simp [hpred.1.1],
        hpred.1.2, hpred.2⟩

/-- C1 witness: the partition properties evaluated on a concrete pair of
mappings (a found item, a missing item, an extra item, and a merged
characteristics key). -/
theorem c1_diff_partition_witness :
    (([(("Poste Elétrico").toList, JValue.obj []), (("Religador").toList, JValue.obj [])].map
        (Prod.fst (β := JValue))).Nodup) ∧
      (([(("Poste Elétrico").toList, JValue.bool true), (("Luminária").toList, JValue.bool true),
          (("Características do Poste Elétrico").toList,
            JValue.obj [(("Material").toList, JValue.str (("Concreto").toList))])].map
        (Prod.fst (β := JValue))).Nodup) ∧
      alookup (("Religador").toList)
        (computeResults
          [(("Poste Elétrico").toList, JValue.obj []), (("Religador").toList, JValue.obj [])]
          [(("Poste Elétrico").toList, JValue.bool true), (("Luminária").toList, JValue.bool true),
           (("Características do Poste Elétrico").toList,
             JValue.obj [(("Material").toList, JValue.str (("Concreto").toList))])]).encontrados =
        some (("Não").toList) ∧
      countL (("Luminária").toList)
        (computeResults
          [(("Poste Elétrico").toList, JValue.obj []), (("Religador").toList, JValue.obj [])]
          [(("Poste Elétrico").toList, JValue.bool true), (("Luminária").toList, JValue.bool true),
           (("Características do Poste Elétrico").toList,
             JValue.obj [(("Material").toList, JValue.str (("Concreto").toList))])]).extras = 1 ∧
      countL (("Características do Poste Elétrico").toList)
        (computeResults
          [(("Poste Elétrico").toList, JValue.obj []), (("Religador").toList, JValue.obj [])]
          [(("Poste Elétrico").toList, JValue.bool true), (("Luminária").toList, JValue.bool true),
           (("Características do Poste Elétrico").toList,
             JValue.obj [(("Material").toList, JValue.str (("Concreto").toList))])]).extras = 0 := by
  have h := c1_diff_partition
    [(("Poste Elétrico").toList, JValue.obj []), (("Religador").toList, JValue.obj [])]
    [(("Poste Elétrico").toList, JValue.bool true), (("Luminária").toList, JValue.bool true),
     (("Características do Poste Elétrico").toList,
       JValue.obj [(("Material").toList, JValue.str (("Concreto").toList))])]
    (by decide) (by decide)
  refine ⟨by decide, by decide, ?_, ?_, ?_⟩
  · have h2 := h.2.1 (("Religador").toList) (by decide)
    rwa [if_neg (by decide)] at h2
  · have h3 := h.2.2 (("Luminária").toList)
    rwa [if_pos (by refine ⟨by decide, by decide, by decide, by decide⟩)] at h3
  · have h3 := h.2.2 (("Características do Poste Elétrico").toList)
    rwa [if_neg (by decide)] at h3

/-! ### C5: inference-response parsing

The development below settles the response-parsing claim.  The structural
lemmas establish that a successfully parsed JSON object text starts with `{`
and ends with `}` and that the parser consumes exactly the text; the fence
lemmas compute the regex search and the manual stripping on bare,
` ``` `-wrapped and ` ```json `-wrapped responses. -/


theorem suffix_skipWs (s : Str) : skipWs s <:+ s := List.dropWhile_suffix isWs


theorem parseDigits_suffix (s ds : Str) (n : Nat) (h : parseDigits s = some (n, ds)) :
    ds <:+ s := by
  unfold parseDigits at h
  simp only [] at h
  by_cases h1 : (s.takeWhile Char.isDigit).isEmpty
  · rw [if_pos h1] at h
    exact Option.noConfusion h
  · rw [if_neg h1] at h
    obtain ⟨-, rfl⟩ : n = natOfDigits (s.takeWhile Char.isDigit) ∧
        s.dropWhile Char.isDigit = ds := by
      have h2 := Option.some_injective _ h
      exact ⟨congrArg Prod.fst h2 |>.symm, congrArg Prod.snd h2⟩
    exact List.dropWhile_suffix _

theorem parseStringBody_suffix :
    ∀ (n : Nat) (cs acc s rest : Str), cs.length ≤ n →
      parseStringBody cs acc = some (s, rest) → rest <:+ cs := by
  intro n
  induction n with
  | zero =>
    intro cs acc s rest hlen h
    match cs with
    | [] => simp [parseStringBody.eq_def] at h
    | c :: cs' => simp at hlen
  | succ n ih =>
    intro cs acc s rest hlen h
    match cs with
    | [] => simp [parseStringBody.eq_def] at h
    | c :: cs' =>
      rw [parseStringBody.eq_def] at h
      simp only [] at h
      split_ifs at h with h1 h2 h3
      · obtain ⟨-, rfl⟩ : acc = s ∧ cs' = rest := by
          have := Option.some_injective _ h
          exact ⟨congrArg Prod.fst this, congrArg Prod.snd this⟩
        exact List.suffix_cons c cs'
      · match cs' with
        | [] => exact Option.noConfusion h
        | e :: r2 =>
          simp only [] at h
          match hu : unescape e with
          | some d =>
            rw [hu] at h
            have hr := ih r2 (acc ++ [d]) s rest (by simp at hlen ⊢; omega) h
            exact hr.trans ((List.suffix_cons e r2).trans (List.suffix_cons c (e :: r2)))
          | none => rw [hu] at h; exact Option.noConfusion h
      all_goals
        first
        | exact Option.noConfusion h
        | (have hr := ih cs' (acc ++ [c]) s rest (by simp at hlen ⊢; omega) h
           exact hr.trans (List.suffix_cons c cs'))

theorem somePair_inj {α β : Type} {a v : α} {b rest : β}
    (h : some (a, b) = some (v, rest)) : v = a ∧ rest = b := by
  have h2 := Option.some_injective _ h
  exact ⟨(congrArg Prod.fst h2).symm, (congrArg Prod.snd h2).symm⟩

theorem suffix_via_skipWs {x cs' : Str} {c : Char} (h : x <:+ skipWs cs') :
    x <:+ c :: cs' :=
  (h.trans (suffix_skipWs cs')).trans (List.suffix_cons c cs')

theorem parse_suffix (f : Nat) :
    (∀ cs v rest, parseVal f cs = some (v, rest) → rest <:+ cs) ∧
    (∀ cs acc v rest, parseMembers f cs acc = some (v, rest) → rest <:+ cs) ∧
    (∀ cs acc v rest, parseElems f cs acc = some (v, rest) → rest <:+ cs) := by
  induction f with
  | zero =>
    refine ⟨?_, ?_, ?_⟩
    · intro cs v rest h
      rw [parseVal.eq_def] at h
      simp only [] at h
      exact Option.noConfusion h
    · intro cs acc v rest h
      rw [parseMembers.eq_def] at h
      simp only [] at h
      exact Option.noConfusion h
    · intro cs acc v rest h
      rw [parseElems.eq_def] at h
      simp only [] at h
      exact Option.noConfusion h
  | succ f ih =>
    obtain ⟨ihV, ihM, ihE⟩ := ih
    refine ⟨?_, ?_, ?_⟩
    · intro cs v rest h
      match cs with
      | [] =>
        rw [parseVal.eq_def] at h
        simp only [] at h
        exact Option.noConfusion h
      | c :: cs' =>
        rw [parseVal.eq_def] at h
        simp only [] at h
        split_ifs at h with h1 h2 h3 h4 h5 h6 h7 h8
        · -- c = lbrace
          rcases hsw : skipWs cs' with _ | ⟨d, r2⟩ <;> rw [hsw] at h
          · exact Option.noConfusion h
          · simp only [] at h
            by_cases hd : d = rbrace
            · rw [if_pos hd] at h
              obtain ⟨-, rfl⟩ := somePair_inj h
              exact suffix_via_skipWs (by rw [hsw]; exact List.suffix_cons d rest)
            · rw [if_neg hd] at h
              exact suffix_via_skipWs (by rw [hsw]; exact ihM (d :: r2) [] v rest h)
        · -- c = '['
          rcases hsw : skipWs cs' with _ | ⟨d, r2⟩ <;> rw [hsw] at h
          · exact Option.noConfusion h
          · simp only [] at h
            by_cases hd : d = ']'
            · rw [if_pos hd] at h
              obtain ⟨-, rfl⟩ := somePair_inj h
              exact suffix_via_skipWs (by rw [hsw]; exact List.suffix_cons d rest)
            · rw [if_neg hd] at h
              exact suffix_via_skipWs (by rw [hsw]; exact ihE (d :: r2) [] v rest h)
        · -- c = '"'
          rcases hps : parseStringBody cs' [] with _ | ⟨s2, r2⟩ <;> rw [hps] at h
          · exact Option.noConfusion h
          · simp only [] at h
            obtain ⟨-, rfl⟩ := somePair_inj h
            exact (parseStringBody_suffix cs'.length cs' [] s2 rest le_rfl hps).trans
              (List.suffix_cons c cs')
        · -- c = 't', literal matches
          obtain ⟨-, rfl⟩ := somePair_inj h
          exact ((List.drop_suffix 3 cs').trans (List.suffix_cons c cs'))
        · -- c = 'f', literal matches
          obtain ⟨-, rfl⟩ := somePair_inj h
          exact ((List.drop_suffix 4 cs').trans (List.suffix_cons c cs'))
        · -- c = 'n', literal matches
          obtain ⟨-, rfl⟩ := somePair_inj h
          exact ((List.drop_suffix 3 cs').trans (List.suffix_cons c cs'))
        · -- c = '-'
          rcases hpd : parseDigits cs' with _ | ⟨nn, r2⟩ <;> rw [hpd] at h
          · exact Option.noConfusion h
          · simp only [] at h
            obtain ⟨-, rfl⟩ := somePair_inj h
            exact (parseDigits_suffix cs' rest nn hpd).trans (List.suffix_cons c cs')
        · -- c digit
          rcases hpd : parseDigits (c :: cs') with _ | ⟨nn, r2⟩ <;> rw [hpd] at h
          · exact Option.noConfusion h
          · simp only [] at h
            obtain ⟨-, rfl⟩ := somePair_inj h
            exact parseDigits_suffix (c :: cs') rest nn hpd
    · intro cs acc v rest h
      rw [parseMembers.eq_def] at h
      simp only [] at h
      split at h
      · next r1 =>
        rcases hps : parseStringBody r1 [] with _ | ⟨k, r2⟩ <;> rw [hps] at h
        · exact Option.noConfusion h
        · simp only [] at h
          have hr2 : r2 <:+ '"' :: r1 :=
            (parseStringBody_suffix r1.length r1 [] k r2 le_rfl hps).trans
              (List.suffix_cons '"' r1)
          split at h
          · next r3 hsw2 =>
            rcases hpv : parseVal f (skipWs r3) with _ | ⟨v2, r4⟩ <;> rw [hpv] at h
            · exact Option.noConfusion h
            · simp only [] at h
              have hr3 : r3 <:+ r2 := by
                have : (':' :: r3) <:+ r2 := by
                  rw [← hsw2]; exact suffix_skipWs r2
                exact (List.suffix_cons ':' r3).trans this
              have hr4 : r4 <:+ r3 :=
                (ihV (skipWs r3) v2 r4 hpv).trans (suffix_skipWs r3)
              split at h
              · next r5 hsw4 =>
                have hx : rest <:+ skipWs r5 := ihM (skipWs r5) _ v rest h
                have hr5 : r5 <:+ r4 := by
                  have : (',' :: r5) <:+ r4 := by
                    rw [← hsw4]; exact suffix_skipWs r4
                  exact (List.suffix_cons ',' r5).trans this
                exact ((((hx.trans (suffix_skipWs r5)).trans hr5).trans hr4).trans
                  hr3).trans hr2
              · next d r5 hne hsw4 =>
                split_ifs at h with hd
                obtain ⟨-, rfl⟩ := somePair_inj h
                have hr5 : rest <:+ r4 := by
                  have : (d :: rest) <:+ r4 := by
                    rw [← hsw4]; exact suffix_skipWs r4
                  exact (List.suffix_cons d rest).trans this
                exact ((hr5.trans hr4).trans hr3).trans hr2
              · exact Option.noConfusion h
          · next hother =>
            exact Option.noConfusion h
      · next hother =>
        exact Option.noConfusion h
    · intro cs acc v rest h
      rw [parseElems.eq_def] at h
      simp only [] at h
      rcases hpv : parseVal f cs with _ | ⟨v2, r1⟩ <;> rw [hpv] at h
      · exact Option.noConfusion h
      · simp only [] at h
        have hr1 : r1 <:+ cs := ihV cs v2 r1 hpv
        split at h
        · next r2 hsw =>
          have hx : rest <:+ skipWs r2 := ihE (skipWs r2) _ v rest h
          have hr2 : r2 <:+ r1 := by
            have : (',' :: r2) <:+ r1 := by
              rw [← hsw]; exact suffix_skipWs r1
            exact (List.suffix_cons ',' r2).trans this
          exact ((hx.trans (suffix_skipWs r2)).trans hr2).trans hr1
        · next r2 hsw =>
          obtain ⟨-, rfl⟩ := somePair_inj h
          have : (']' :: rest) <:+ r1 := by
            rw [← hsw]; exact suffix_skipWs r1
          exact ((List.suffix_cons ']' rest).trans this).trans hr1
        · next hall hsw =>
          exact Option.noConfusion h

theorem parseMembers_close :
    ∀ (f : Nat) (cs : Str) (acc : List (Str × JValue)) (v : JValue) (rest : Str),
      parseMembers f cs acc = some (v, rest) → (rbrace :: rest) <:+ cs := by
  intro f
  induction f with
  | zero =>
    intro cs acc v rest h
    rw [parseMembers.eq_def] at h
    simp only [] at h
    exact Option.noConfusion h
  | succ f ih =>
    intro cs acc v rest h
    obtain ⟨ihV, -, -⟩ := parse_suffix f
    rw [parseMembers.eq_def] at h
    simp only [] at h
    split at h
    · next r1 =>
      rcases hps : parseStringBody r1 [] with _ | ⟨k, r2⟩ <;> rw [hps] at h
      · exact Option.noConfusion h
      · simp only [] at h
        have hr2 : r2 <:+ '"' :: r1 :=
          (parseStringBody_suffix r1.length r1 [] k r2 le_rfl hps).trans
            (List.suffix_cons '"' r1)
        split at h
        · next r3 hsw2 =>
          rcases hpv : parseVal f (skipWs r3) with _ | ⟨v2, r4⟩ <;> rw [hpv] at h
          · exact Option.noConfusion h
          · simp only [] at h
            have hr3 : r3 <:+ r2 := by
              have hc : (':' :: r3) <:+ r2 := by
                rw [← hsw2]; exact suffix_skipWs r2
              exact (List.suffix_cons ':' r3).trans hc
            have hr4 : r4 <:+ r3 :=
              (ihV (skipWs r3) v2 r4 hpv).trans (suffix_skipWs r3)
            split at h
            · next r5 hsw4 =>
              have hx : (rbrace :: rest) <:+ skipWs r5 := ih (skipWs r5) _ v rest h
              have hr5 : r5 <:+ r4 := by
                have hc : (',' :: r5) <:+ r4 := by
                  rw [← hsw4]; exact suffix_skipWs r4
                exact (List.suffix_cons ',' r5).trans hc
              exact ((((hx.trans (suffix_skipWs r5)).trans hr5).trans hr4).trans
                hr3).trans hr2
            · next d r5 hne hsw4 =>
              split_ifs at h with hd
              obtain ⟨-, rfl⟩ := somePair_inj h
              subst hd
              have hc : (rbrace :: rest) <:+ r4 := by
                rw [← hsw4]; exact suffix_skipWs r4
              exact ((hc.trans hr4).trans hr3).trans hr2
            · exact Option.noConfusion h
        · next hother =>
          exact Option.noConfusion h
    · next hother =>
      exact Option.noConfusion h

theorem parseElems_arr :
    ∀ (f : Nat) (cs : Str) (acc : List JValue) (v : JValue) (rest : Str),
      parseElems f cs acc = some (v, rest) → ∃ es, v = JValue.arr es := by
  intro f
  induction f with
  | zero =>
    intro cs acc v rest h
    rw [parseElems.eq_def] at h
    simp only [] at h
    exact Option.noConfusion h
  | succ f ih =>
    intro cs acc v rest h
    rw [parseElems.eq_def] at h
    simp only [] at h
    rcases hpv : parseVal f cs with _ | ⟨v2, r1⟩ <;> rw [hpv] at h
    · exact Option.noConfusion h
    · simp only [] at h
      split at h
      · next r2 hsw =>
        exact ih (skipWs r2) _ v rest h
      · next r2 hsw =>
        obtain ⟨hv, -⟩ := somePair_inj h
        exact ⟨_, hv⟩
      · next hall hsw =>
        exact Option.noConfusion h

theorem parseVal_obj_shape (f : Nat) (cs : Str) (l : List (Str × JValue)) (rest : Str)
    (h : parseVal f cs = some (JValue.obj l, rest)) :
    (∃ cs', cs = lbrace :: cs') ∧ (rbrace :: rest) <:+ cs := by
  match f with
  | 0 =>
    rw [parseVal.eq_def] at h
    simp only [] at h
    exact Option.noConfusion h
  | f + 1 =>
    match cs with
    | [] =>
      rw [parseVal.eq_def] at h
      simp only [] at h
      exact Option.noConfusion h
    | c :: cs' =>
      rw [parseVal.eq_def] at h
      simp only [] at h
      split_ifs at h with h1 h2 h3 h4 h5 h6 h7 h8
      · subst h1
        refine ⟨⟨cs', rfl⟩, ?_⟩
        rcases hsw : skipWs cs' with _ | ⟨d, r2⟩ <;> rw [hsw] at h
        · exact Option.noConfusion h
        · simp only [] at h
          by_cases hd : d = rbrace
          · rw [if_pos hd] at h
            obtain ⟨-, rfl⟩ := somePair_inj h
            subst hd
            have hc : (rbrace :: rest) <:+ skipWs cs' := by rw [hsw]
            exact suffix_via_skipWs hc
          · rw [if_neg hd] at h
            have hc := parseMembers_close f (d :: r2) [] (JValue.obj l) rest h
            exact suffix_via_skipWs (by rw [hsw]; exact hc)
      · -- '[' branch cannot produce an object
        rcases hsw : skipWs cs' with _ | ⟨d, r2⟩ <;> rw [hsw] at h
        · exact Option.noConfusion h
        · simp only [] at h
          by_cases hd : d = ']'
          · rw [if_pos hd] at h
            obtain ⟨hv, -⟩ := somePair_inj h
            exact JValue.noConfusion hv
          · rw [if_neg hd] at h
            obtain ⟨es, hes⟩ := parseElems_arr f (d :: r2) [] _ rest h
            exact JValue.noConfusion hes
      · rcases hps : parseStringBody cs' [] with _ | ⟨s2, r2⟩ <;> rw [hps] at h
        · exact Option.noConfusion h
        · simp only [] at h
          obtain ⟨hv, -⟩ := somePair_inj h
          exact JValue.noConfusion hv
      · obtain ⟨hv, -⟩ := somePair_inj h
        exact JValue.noConfusion hv
      · obtain ⟨hv, -⟩ := somePair_inj h
        exact JValue.noConfusion hv
      · obtain ⟨hv, -⟩ := somePair_inj h
        exact JValue.noConfusion hv
      · rcases hpd : parseDigits cs' with _ | ⟨nn, r2⟩ <;> rw [hpd] at h
        · exact Option.noConfusion h
        · simp only [] at h
          obtain ⟨hv, -⟩ := somePair_inj h
          exact JValue.noConfusion hv
      · rcases hpd : parseDigits (c :: cs') with _ | ⟨nn, r2⟩ <;> rw [hpd] at h
        · exact Option.noConfusion h
        · simp only [] at h
          obtain ⟨hv, -⟩ := somePair_inj h
          exact JValue.noConfusion hv

theorem skipWs_cons_not_ws (c : Char) (t : Str) (h : isWs c = false) :
    skipWs (c :: t) = c :: t :=
  List.dropWhile_cons_of_neg (by simp [h])

theorem skipWs_cons_ws (c : Char) (t : Str) (h : isWs c = true) :
    skipWs (c :: t) = skipWs t :=
  List.dropWhile_cons_of_pos (by simp [h])

theorem stripRight_append_not_ws (A : Str) (c : Char) (h : isWs c = false) :
    stripRight (A ++ [c]) = A ++ [c] := by
  unfold stripRight
  rw [List.reverse_append, List.reverse_singleton, List.singleton_append,
    List.dropWhile_cons_of_neg (by simp [h]), List.reverse_cons, List.reverse_reverse]

theorem pyStrip_length_le (s : Str) : (pyStrip s).length ≤ s.length := by
  unfold pyStrip stripRight
  calc ((skipWs s).reverse.dropWhile isWs).reverse.length
      = ((skipWs s).reverse.dropWhile isWs).length := List.length_reverse _
    _ ≤ (skipWs s).reverse.length := (List.dropWhile_suffix isWs).length_le
    _ = (skipWs s).length := List.length_reverse _
    _ ≤ s.length := (List.dropWhile_suffix isWs).length_le

theorem skipWs_eq_self_of_strip (u : Str) (h : pyStrip u = u) : skipWs u = u := by
  have h1 : (skipWs u).length ≤ u.length := (List.dropWhile_suffix isWs).length_le
  have h2 : (pyStrip u).length ≤ (skipWs u).length := by
    unfold pyStrip stripRight
    calc ((skipWs u).reverse.dropWhile isWs).reverse.length
        = ((skipWs u).reverse.dropWhile isWs).length := List.length_reverse _
      _ ≤ (skipWs u).reverse.length := (List.dropWhile_suffix isWs).length_le
      _ = (skipWs u).length := List.length_reverse _
  rw [h] at h2
  exact (suffix_skipWs u).eq_of_length (by omega)

theorem stripRight_eq_self_of_strip (u : Str) (h : pyStrip u = u) : stripRight u = u := by
  have h1 := skipWs_eq_self_of_strip u h
  unfold pyStrip at h
  rw [h1] at h
  exact h

theorem no_ws_suffix_of_strip (u rest : Str) (h : pyStrip u = u) (hsuf : rest <:+ u)
    (hne : rest ≠ []) (hws : ∀ c ∈ rest, isWs c = true) : False := by
  obtain ⟨pre, rfl⟩ := hsuf
  have hsr := stripRight_eq_self_of_strip _ h
  have hlen : (stripRight (pre ++ rest)).length < (pre ++ rest).length := by
    unfold stripRight
    rw [List.reverse_append]
    match hrev : rest.reverse with
    | [] => exact absurd (by simpa using hrev) hne
    | c :: cr =>
      have hc : isWs c = true := by
        have : c ∈ rest.reverse := by rw [hrev]; exact List.mem_cons_self c cr
        exact hws c (List.mem_reverse.mp this)
      rw [List.cons_append, List.dropWhile_cons_of_pos (by simp [hc])]
      have hle : (List.dropWhile isWs (cr ++ pre.reverse)).length ≤
          (cr ++ pre.reverse).length := (List.dropWhile_suffix isWs).length_le
      have hlr : rest.length = cr.length + 1 := by
        have : rest.reverse.length = cr.length + 1 := by rw [hrev]; simp
        simpa using this
      simp only [List.length_reverse, List.length_append] at *
      omega
  rw [hsr] at hlen
  omega

theorem objText_facts (u : Str) (l : List (Str × JValue))
    (hstrip : pyStrip u = u) (hu : jsonParse u = some (JValue.obj l)) :
    parseVal (u.length + 1) u = some (JValue.obj l, []) ∧
      (∃ u', u = lbrace :: u') ∧ (∃ d, u = d ++ [rbrace]) := by
  have hsk := skipWs_eq_self_of_strip u hstrip
  unfold jsonParse at hu
  simp only [] at hu
  rw [hsk] at hu
  rcases hp : parseVal (u.length + 1) u with _ | ⟨v, rest⟩ <;> rw [hp] at hu
  · exact Option.noConfusion hu
  · simp only [] at hu
    split_ifs at hu with hws
    obtain rfl : v = JValue.obj l := Option.some_injective _ hu
    have hrest : rest = [] := by
      by_contra hne
      apply no_ws_suffix_of_strip u rest hstrip
        ((parse_suffix (u.length + 1)).1 u _ rest hp) hne
      intro c hc
      have := List.dropWhile_eq_nil_iff.mp hws c hc
      simpa using this
    subst hrest
    obtain ⟨⟨u', hu'⟩, hcl⟩ := parseVal_obj_shape (u.length + 1) u l [] hp
    refine ⟨rfl, ⟨u', hu'⟩, ?_⟩
    obtain ⟨d, hd⟩ := hcl
    exact ⟨d, hd.symm⟩

theorem startsWithL_append_self (p r : Str) : startsWithL p (p ++ r) = true := by
  induction p with
  | nil => rfl
  | cons a p ih => simp [startsWithL, ih]

theorem startsWithL_cons_same (a : Char) (p s : Str) :
    startsWithL (a :: p) (a :: s) = startsWithL p s := by
  simp [startsWithL]

theorem startsWithL_head_ne (a b : Char) (p s : Str) (h : (a == b) = false) :
    startsWithL (a :: p) (b :: s) = false := by
  simp [startsWithL, h]

theorem pyFencedSearch_none (s : Str) (h : hasSubL fenceJsonTok s = false) :
    pyFencedSearch s = none := by
  induction s with
  | nil => rfl
  | cons c t ih =>
    rw [hasSubL] at h
    have h1 : startsWithL fenceJsonTok (c :: t) = false := by
      rcases Bool.or_eq_false_iff.mp h with ⟨h1, -⟩
      exact h1
    have h2 : hasSubL fenceJsonTok t = false := by
      rcases Bool.or_eq_false_iff.mp h with ⟨-, h2⟩
      exact h2
    rw [pyFencedSearch, if_neg (by simp [h1])]
    exact ih h2

theorem find_reverse_range (P : Nat → Bool) (n j : Nat) (hj : j < n) (hP : P j = true)
    (hmax : ∀ k, j < k → P k = false) :
    (List.range n).reverse.find? P = some j := by
  induction n with
  | zero => omega
  | succ n ih =>
    rw [List.range_succ, List.reverse_append]
    simp only [List.reverse_singleton, List.singleton_append]
    by_cases hn : j = n
    · subst hn
      rw [List.find?_cons_of_pos _ hP]
    · have hPn : P n = false := hmax n (by omega)
      rw [List.find?_cons_of_neg _ (by simp [hPn])]
      exact ih (by omega)

theorem startsWithL_self (p : Str) : startsWithL p p = true := by
  have h := startsWithL_append_self p []
  rwa [List.append_nil] at h

theorem skipWs_fenceTok : skipWs fenceTok = fenceTok := by
  rw [show fenceTok = '`' :: ('`' :: '`' :: []) from rfl]
  exact skipWs_cons_not_ws _ _ (by decide)

theorem getD_tail_ne_rbrace (m : Nat) : (('\n' :: fenceTok) : Str).getD m ' ' ≠ rbrace := by
  rcases m with _ | _ | _ | _ | m
  · decide
  · decide
  · decide
  · decide
  · have h : (('\n' :: fenceTok) : Str).length ≤ m + 1 + 1 + 1 + 1 := by
      rw [show fenceTok = ("```").toList from rfl]
      simp
    rw [List.getD_eq_default _ _ h]
    decide

theorem closeCond_at_end (d : Str) :
    closeCond ((d ++ [rbrace]) ++ ('\n' :: fenceTok)) d.length = true := by
  have h1 : ((d ++ [rbrace]) ++ ('\n' :: fenceTok)).getD d.length ' ' = rbrace := by
    rw [List.getD_eq_getElem?_getD, List.getElem?_append_left (by simp),
      show (d ++ [rbrace])[d.length]? = some rbrace from List.getElem?_concat_length d rbrace]
    rfl
  have h2 : ((d ++ [rbrace]) ++ ('\n' :: fenceTok)).drop (d.length + 1) =
      '\n' :: fenceTok := by
    rw [show d.length + 1 = (d ++ [rbrace]).length from by simp]
    exact List.drop_left _ _
  unfold closeCond
  rw [decide_eq_true h1, Bool.true_and, h2, skipWs_cons_ws _ _ (by decide), skipWs_fenceTok]
  exact startsWithL_self fenceTok

theorem closeCond_past_end (d : Str) (k : Nat) (hk : d.length < k) :
    closeCond ((d ++ [rbrace]) ++ ('\n' :: fenceTok)) k = false := by
  have h1 : ((d ++ [rbrace]) ++ ('\n' :: fenceTok)).getD k ' ' ≠ rbrace := by
    have he : ((d ++ [rbrace]) ++ ('\n' :: fenceTok)).getD k ' ' =
        (('\n' :: fenceTok) : Str).getD (k - (d ++ [rbrace]).length) ' ' := by
      rw [List.getD_eq_getElem?_getD, List.getD_eq_getElem?_getD,
        List.getElem?_append_right (by simp; omega)]
    rw [he]
    exact getD_tail_ne_rbrace _
  unfold closeCond
  rw [decide_eq_false h1, Bool.false_and]

theorem lastCloseIdx_wrap (d : Str) :
    lastCloseIdx ((d ++ [rbrace]) ++ ('\n' :: fenceTok)) = some d.length := by
  unfold lastCloseIdx
  apply find_reverse_range
  · rw [show fenceTok = ("```").toList from rfl]
    simp
  · exact closeCond_at_end d
  · intro k hk
    exact closeCond_past_end d k hk

theorem tryFence_wrap (u u' : Str) (hhead : u = lbrace :: u') (hclose : ∃ d, u = d ++ [rbrace]) :
    tryFence ('\n' :: (u ++ ('\n' :: fenceTok))) = some u := by
  obtain ⟨d, hd⟩ := hclose
  have hsk : skipWs ('\n' :: (u ++ ('\n' :: fenceTok))) = u ++ ('\n' :: fenceTok) := by
    rw [skipWs_cons_ws _ _ (by decide), hhead, List.cons_append,
      skipWs_cons_not_ws _ _ (by decide)]
  unfold tryFence
  rw [hsk, hhead, List.cons_append]
  simp only [if_true]
  have hback : lbrace :: (u' ++ ('\n' :: fenceTok)) = (d ++ [rbrace]) ++ ('\n' :: fenceTok) := by
    rw [← List.cons_append, ← hhead, hd]
  rw [hback, lastCloseIdx_wrap d]
  simp only []
  rw [show d.length + 1 = (d ++ [rbrace]).length from by simp,
    List.take_left (d ++ [rbrace]) ('\n' :: fenceTok), ← hd, hhead]

theorem pyFencedSearch_jsonWrap (u u' : Str) (hhead : u = lbrace :: u')
    (hclose : ∃ d, u = d ++ [rbrace]) :
    pyFencedSearch (jsonFenceWrap u) = some u := by
  have hshape : jsonFenceWrap u =
      '`' :: ('`' :: '`' :: 'j' :: 's' :: 'o' :: 'n' :: ('\n' :: (u ++ ('\n' :: fenceTok)))) := by
    rw [jsonFenceWrap, show fenceJsonTok = ("```json").toList from rfl]
    simp
  rw [hshape, pyFencedSearch]
  rw [if_pos ?hsw]
  case hsw =>
    rw [show ('`' :: ('`' :: '`' :: 'j' :: 's' :: 'o' :: 'n' ::
        ('\n' :: (u ++ ('\n' :: fenceTok))))) = fenceJsonTok ++ ('\n' :: (u ++ ('\n' :: fenceTok)))
      from by rw [show fenceJsonTok = ("```json").toList from rfl]; simp]
    exact startsWithL_append_self _ _
  rw [show (('`' :: ('`' :: '`' :: 'j' :: 's' :: 'o' :: 'n' ::
      ('\n' :: (u ++ ('\n' :: fenceTok)))))).drop 7 = '\n' :: (u ++ ('\n' :: fenceTok))
    from rfl]
  rw [tryFence_wrap u u' hhead hclose]

theorem pyStrip_eq_self_of_ends (a : Char) (mid : Str) (b : Char)
    (ha : isWs a = false) (hb : isWs b = false) :
    pyStrip (a :: (mid ++ [b])) = a :: (mid ++ [b]) := by
  unfold pyStrip
  rw [skipWs_cons_not_ws _ _ ha,
    show a :: (mid ++ [b]) = (a :: mid) ++ [b] from by simp,
    stripRight_append_not_ws _ _ hb]

theorem endsWithL_fence_of_rbrace (d : Str) :
    endsWithL fenceTok (d ++ [rbrace]) = false := by
  unfold endsWithL
  rw [List.reverse_append, List.reverse_singleton, List.singleton_append,
    show fenceTok.reverse = '`' :: ('`' :: '`' :: []) from rfl]
  exact startsWithL_head_ne _ _ _ _ (by decide)

theorem stripFences_objText (u u' : Str) (hhead : u = lbrace :: u')
    (hclose : ∃ d, u = d ++ [rbrace]) (hstrip : pyStrip u = u) :
    stripFences u = u := by
  obtain ⟨d, hd⟩ := hclose
  unfold stripFences
  simp only []
  rw [hstrip]
  rw [show startsWithL fenceJsonTok u = false from by
    rw [hhead, show fenceJsonTok = '`' :: ('`' :: '`' :: 'j' :: 's' :: 'o' :: 'n' :: [])
      from rfl]
    exact startsWithL_head_ne _ _ _ _ (by decide)]
  simp only [Bool.false_eq_true, if_false]
  rw [show startsWithL fenceTok u = false from by
    rw [hhead, show fenceTok = '`' :: ('`' :: '`' :: []) from rfl]
    exact startsWithL_head_ne _ _ _ _ (by decide)]
  simp only [Bool.false_eq_true, if_false]
  rw [show endsWithL fenceTok u = false from by rw [hd]; exact endsWithL_fence_of_rbrace d]
  simp only [Bool.false_eq_true, if_false]
  exact hstrip

theorem endsWithL_append_self (p A : Str) : endsWithL p (A ++ p) = true := by
  unfold endsWithL
  rw [List.reverse_append]
  exact startsWithL_append_self _ _

theorem pyStrip_newline_pad (u u' : Str) (hhead : u = lbrace :: u')
    (hclose : ∃ d, u = d ++ [rbrace]) :
    pyStrip ('\n' :: (u ++ ['\n'])) = u := by
  obtain ⟨d, hd⟩ := hclose
  unfold pyStrip
  rw [skipWs_cons_ws _ _ (by decide), hhead, List.cons_append,
    skipWs_cons_not_ws _ _ (by decide), ← List.cons_append, ← hhead]
  unfold stripRight
  rw [List.reverse_append, List.reverse_singleton, List.singleton_append,
    List.dropWhile_cons_of_pos (by decide),
    show u.reverse = rbrace :: d.reverse from by
      rw [hd, List.reverse_append, List.reverse_singleton, List.singleton_append],
    List.dropWhile_cons_of_neg (by decide),
    ← show u.reverse = rbrace :: d.reverse from by
      rw [hd, List.reverse_append, List.reverse_singleton, List.singleton_append],
    List.reverse_reverse]

theorem plainFenceWrap_shape (u : Str) :
    plainFenceWrap u =
      '`' :: (('`' :: '`' :: '\n' :: []) ++ (u ++ ('\n' :: '`' :: '`' :: [])) ++ ['`']) := by
  rw [plainFenceWrap, show fenceTok = ("```").toList from rfl]
  simp

theorem jsonFenceWrap_shape (u : Str) :
    jsonFenceWrap u =
      '`' :: (('`' :: '`' :: 'j' :: 's' :: 'o' :: 'n' :: '\n' :: []) ++
        (u ++ ('\n' :: '`' :: '`' :: [])) ++ ['`']) := by
  rw [jsonFenceWrap, show fenceJsonTok = ("```json").toList from rfl,
    show fenceTok = ("```").toList from rfl]
  simp

theorem pyStrip_plainWrap (u : Str) : pyStrip (plainFenceWrap u) = plainFenceWrap u := by
  rw [plainFenceWrap_shape,
    show ('`' :: (('`' :: '`' :: '\n' :: []) ++ (u ++ ('\n' :: '`' :: '`' :: [])) ++ ['`'])) =
      ('`' :: ((('`' :: '`' :: '\n' :: []) ++ (u ++ ('\n' :: '`' :: '`' :: []))) ++ ['`']))
      from by simp,
    pyStrip_eq_self_of_ends _ _ _ (by decide) (by decide)]

theorem pyStrip_jsonWrap (u : Str) : pyStrip (jsonFenceWrap u) = jsonFenceWrap u := by
  rw [jsonFenceWrap_shape,
    show ('`' :: (('`' :: '`' :: 'j' :: 's' :: 'o' :: 'n' :: '\n' :: []) ++
        (u ++ ('\n' :: '`' :: '`' :: [])) ++ ['`'])) =
      ('`' :: ((('`' :: '`' :: 'j' :: 's' :: 'o' :: 'n' :: '\n' :: []) ++
        (u ++ ('\n' :: '`' :: '`' :: []))) ++ ['`'])) from by simp,
    pyStrip_eq_self_of_ends _ _ _ (by decide) (by decide)]

theorem stripFences_plainWrap (u u' : Str) (hhead : u = lbrace :: u')
    (hclose : ∃ d, u = d ++ [rbrace]) :
    stripFences (plainFenceWrap u) = u := by
  unfold stripFences
  simp only []
  rw [pyStrip_plainWrap]
  rw [show startsWithL fenceJsonTok (plainFenceWrap u) = false from by
    rw [plainFenceWrap_shape, show fenceJsonTok = '`' :: ('`' :: '`' :: 'j' :: 's' :: 'o' ::
      'n' :: []) from rfl]
    simp only [List.cons_append, List.nil_append]
    rw [startsWithL_cons_same, startsWithL_cons_same, startsWithL_cons_same]
    exact startsWithL_head_ne _ _ _ _ (by decide)]
  simp only [Bool.false_eq_true, if_false]
  rw [show startsWithL fenceTok (plainFenceWrap u) = true from by
    rw [plainFenceWrap]
    rw [show fenceTok ++ ['\n'] ++ u ++ ['\n'] ++ fenceTok =
      fenceTok ++ (['\n'] ++ u ++ ['\n'] ++ fenceTok) from by simp]
    exact startsWithL_append_self _ _]
  simp only [if_true]
  rw [show (plainFenceWrap u).drop 3 = ('\n' :: (u ++ ['\n'])) ++ fenceTok from by
    rw [plainFenceWrap,
      show fenceTok ++ ['\n'] ++ u ++ ['\n'] ++ fenceTok =
        fenceTok ++ (('\n' :: (u ++ ['\n'])) ++ fenceTok) from by simp,
      show (3 : Nat) = fenceTok.length from rfl]
    exact List.drop_left _ _]
  rw [endsWithL_append_self fenceTok ('\n' :: (u ++ ['\n']))]
  simp only [if_true]
  rw [show (('\n' :: (u ++ ['\n'])) ++ fenceTok).length - 3 =
      ('\n' :: (u ++ ['\n'])).length from by
    rw [List.length_append, show fenceTok.length = 3 from rfl]
    omega]
  rw [List.take_left ('\n' :: (u ++ ['\n'])) fenceTok]
  exact pyStrip_newline_pad u u' hhead hclose

/-- C5 amended.  The model's response pipeline: with no choices, empty
content, or an extracted string that fails to decode, a fallback error JSON
(`\x7bmensagem: Erro ...\x7d`) is written; and a response that is a JSON
object, bare or wrapped in ` ``` ` or ` ```json ` fences, is unwrapped and
written as decoded - provided the response contains no embedded occurrence
of the substring ` ```json ` (for the ` ```json `-wrapped form no proviso
is needed: the leading fence itself matches first).  The unrestricted claim
is refuted by the counterexample theorem. -/
theorem c5_response_parsing_amended :
    (generate_new_output_json [] = errApi) ∧
      (∀ content : Str, pyStrip content = [] →
        generate_new_output_json [content] = errApi) ∧
      (∀ content : Str, pyStrip content ≠ [] →
        jsonParse (extractJsonStr (pyStrip content)) = none →
        generate_new_output_json [content] = errParse) ∧
      (∀ (u : Str) (l : List (Str × JValue)), pyStrip u = u →
        jsonParse u = some (JValue.obj l) →
        (hasSubL fenceJsonTok u = false →
          generate_new_output_json [u] = JValue.obj l) ∧
        (hasSubL fenceJsonTok (plainFenceWrap u) = false →
          generate_new_output_json [plainFenceWrap u] = JValue.obj l) ∧
        generate_new_output_json [jsonFenceWrap u] = JValue.obj l) := by
  refine ⟨rfl, ?_, ?_, ?_⟩
  · intro content h
    unfold generate_new_output_json
    simp only []
    rw [h, if_pos rfl]
  · intro content h1 h2
    unfold generate_new_output_json
    simp only []
    rw [if_neg h1, h2]
  · intro u l hstrip hparse
    obtain ⟨hpv, ⟨u', hhead⟩, hclose⟩ := objText_facts u l hstrip hparse
    have hne : u ≠ [] := by rw [hhead]; exact List.cons_ne_nil _ _
    refine ⟨?_, ?_, ?_⟩
    · intro hfj
      unfold generate_new_output_json
      simp only []
      rw [hstrip, if_neg hne]
      have he : extractJsonStr u = u := by
        unfold extractJsonStr
        rw [pyFencedSearch_none u hfj]
        exact stripFences_objText u u' hhead hclose hstrip
      rw [he, hparse]
    · intro hfjw
      have hwne : plainFenceWrap u ≠ [] := by
        rw [plainFenceWrap_shape]
        exact List.cons_ne_nil _ _
      unfold generate_new_output_json
      simp only []
      rw [pyStrip_plainWrap, if_neg hwne]
      have he : extractJsonStr (plainFenceWrap u) = u := by
        unfold extractJsonStr
        rw [pyFencedSearch_none _ hfjw]
        exact stripFences_plainWrap u u' hhead hclose
      rw [he, hparse]
    · have hwne : jsonFenceWrap u ≠ [] := by
        rw [jsonFenceWrap_shape]
        exact List.cons_ne_nil _ _
      unfold generate_new_output_json
      simp only []
      rw [pyStrip_jsonWrap, if_neg hwne]
      have he : extractJsonStr (jsonFenceWrap u) = u := by
        unfold extractJsonStr
        rw [pyFencedSearch_jsonWrap u u' hhead hclose]
        exact stripFences_objText u u' hhead hclose hstrip
      rw [he, hparse]

/-- C5 counterexample.  The bare response `\x7b"a": "```json \x7bb\x7d ```"\x7d`
is a decodable JSON object, but the fence regex of
`generate_new_output_json` matches the ` ```json ` inside the string literal
and extracts `\x7bb\x7d`, so the code writes the fallback parse-error object
instead of the decoded object. -/
theorem c5_fence_extraction_counterexample :
    jsonParse (("\x7b\"a\": \"```json \x7bb\x7d ```\"\x7d").toList) =
      some (JValue.obj [(("a").toList, JValue.str (("```json \x7bb\x7d ```").toList))]) ∧
      generate_new_output_json [("\x7b\"a\": \"```json \x7bb\x7d ```\"\x7d").toList] =
        errParse ∧
      errParse ≠ JValue.obj [(("a").toList, JValue.str (("```json \x7bb\x7d ```").toList))] := by
  refine ⟨rfl, rfl, ?_⟩
  intro h
  rw [errParse] at h
  injection h with h1
  injection h1 with h2 h3
  injection h2 with h4 h5
  have := congrArg List.length h4
  simp at this

/-- C5 witness: the object text `\x7b"a": true\x7d`, bare and in both fence
wrappings, and the empty response. -/
theorem c5_response_parsing_amended_witness :
    pyStrip (("\x7b\"a\": true\x7d").toList) = ("\x7b\"a\": true\x7d").toList ∧
      jsonParse (("\x7b\"a\": true\x7d").toList) =
        some (JValue.obj [(("a").toList, JValue.bool true)]) ∧
      hasSubL fenceJsonTok (("\x7b\"a\": true\x7d").toList) = false ∧
      hasSubL fenceJsonTok (plainFenceWrap (("\x7b\"a\": true\x7d").toList)) = false ∧
      pyStrip [] = [] ∧
      generate_new_output_json [("\x7b\"a\": true\x7d").toList] =
        JValue.obj [(("a").toList, JValue.bool true)] ∧
      generate_new_output_json [plainFenceWrap (("\x7b\"a\": true\x7d").toList)] =
        JValue.obj [(("a").toList, JValue.bool true)] ∧
      generate_new_output_json [jsonFenceWrap (("\x7b\"a\": true\x7d").toList)] =
        JValue.obj [(("a").toList, JValue.bool true)] ∧
      generate_new_output_json [[]] = errApi := by
  have h := c5_response_parsing_amended
  have h4 := h.2.2.2 (("\x7b\"a\": true\x7d").toList)
    [(("a").toList, JValue.bool true)] rfl rfl
  exact ⟨rfl, rfl, rfl, rfl, rfl, h4.1 rfl, h4.2.1 rfl, h4.2.2, h.2.1 [] rfl⟩
